import Mathlib

/-!
Verification of the Focalboard RAG pipeline (server/api): the SQL safety
validator, intent classifier, template SQL synthesizer, pipeline entry
point, streaming relay and result-set serialization.

Go strings are modelled as `List Char`; the relevant functions of the Go
standard library (`strings.ToUpper`, `strings.Contains`, regular-expression
word-boundary search, ...) are embedded as recursive functions over
`List Char`, restricted to the ASCII behaviour the source relies on.
External effects (the LLM HTTP call, the sqlite connection) are oracles
passed in as function parameters, and each run also returns the ordered
list of observable events (LLM calls, validator calls, executor calls).
-/

deriving instance DecidableEq for Except

namespace Focalboard

/-- Whitespace characters stripped by `strings.TrimSpace` (ASCII range). -/
def isSpaceGo (c : Char) : Bool :=
  c == ' ' || c == '\t' || c == '\n' || c == '\x0b' || c == '\x0c' || c == '\r'

/-- `strings.ToUpper` (ASCII letters; all strings the source upper-cases are
treated code-point-wise). -/
def toUpperL (s : List Char) : List Char := s.map Char.toUpper

/-- `strings.ToLower` (ASCII letters). -/
def toLowerL (s : List Char) : List Char := s.map Char.toLower

/-- `strings.TrimSpace`: drop whitespace from both ends. -/
def trimL (s : List Char) : List Char :=
  ((s.dropWhile isSpaceGo).reverse.dropWhile isSpaceGo).reverse

/-- `strings.HasPrefix s sub` (second argument is the candidate prefix). -/
def hasPrefixL : List Char → List Char → Bool
  | _, [] => true
  | [], _ :: _ => false
  | c :: cs, d :: ds => c == d && hasPrefixL cs ds

/-- `strings.Contains s sub`. -/
def containsL (s sub : List Char) : Bool :=
  match s with
  | [] => hasPrefixL [] sub
  | c :: cs => hasPrefixL (c :: cs) sub || containsL cs sub

/-- A word character for the regexp word boundary `\b` (RE2: `[0-9A-Za-z_]`). -/
def isWordChar (c : Char) : Bool :=
  ('a' ≤ c && c ≤ 'z') || ('A' ≤ c && c ≤ 'Z') || ('0' ≤ c && c ≤ '9') || c == '_'

/-- `true` when the optional character (the one adjacent to a candidate match,
`none` at the ends of the string) is absent or not a word character. -/
def notWordOpt : Option Char → Bool
  | none => true
  | some c => !isWordChar c

/-- Scan for an occurrence of `kw` delimited by word boundaries; `prev` is the
character just before the current position (`none` at the start). -/
def cwAux (prev : Option Char) (s kw : List Char) : Bool :=
  (notWordOpt prev && hasPrefixL s kw && notWordOpt ((s.drop kw.length).head?)) ||
    match s with
    | [] => false
    | c :: cs => cwAux (some c) cs kw

/-- `regexp.MustCompile("\\b" ++ kw ++ "\\b").MatchString s` for a keyword made
of word characters. -/
def containsWordL (s kw : List Char) : Bool := cwAux none s kw

/-- The errors `validateReadOnlySQL` can return (static errors of the source,
the keyword/character variants carrying what the wrapped message names). -/
inductive ValidateErr where
  | emptySQL
  | notSelect
  | forbiddenKeyword (kw : List Char)
  | forbiddenChars (ch : List Char)
  deriving DecidableEq, Repr

/-- The source's `forbiddenKeywords` list, in order. -/
def forbiddenKeywords : List (List Char) :=
  ["DELETE".data, "UPDATE".data, "DROP".data, "INSERT".data, "TRUNCATE".data,
   "ALTER".data]

/-- The source's `forbiddenChars` list, in order. -/
def forbiddenCharSeqs : List (List Char) := [";".data, "--".data, "/*".data]

/-- `validateReadOnlySQL`: empty check, SELECT-prefix check on the upper-cased
trimmed text, word-boundary keyword denylist, then substring denylist; the
first failing rule's error is returned, `none` means the statement passed.
(The regex-compile-error branch of the source cannot fire for these fixed
keywords and has no counterpart here.) -/
def validateReadOnlySQL (sqlText : List Char) : Option ValidateErr :=
  if sqlText = [] then some .emptySQL
  else
    let up := toUpperL (trimL sqlText)
    if !hasPrefixL up "SELECT".data then some .notSelect
    else
      match forbiddenKeywords.find? (fun kw => containsWordL up kw) with
      | some kw => some (.forbiddenKeyword kw)
      | none =>
        match forbiddenCharSeqs.find? (fun ch => containsL up ch) with
        | some ch => some (.forbiddenChars ch)
        | none => none

/-- `strings.Join parts sep` (arguments flipped: separator first). -/
def joinL (sep : List Char) : List (List Char) → List Char
  | [] => []
  | [x] => x
  | x :: y :: rest => x ++ sep ++ joinL sep (y :: rest)

/-- `propCatalog` of the source.  Go's `map[string]map[string]string` for
`StatusPropOptions` is modelled as an association list (one fixed iteration
order); the inner map `status-label → option id` likewise. -/
structure propCatalog where
  PersonPropIDs : List (List Char)
  MultiPersonPropIDs : List (List Char)
  StatusPropOptions : List (List Char × List (List Char × List Char))
  DatePropIDs : List (List Char)
  deriving DecidableEq, Repr

/-- Lookup in the inner `status-label → option id` map (`opts[k]`). -/
def lookupOpt (opts : List (List Char × List Char)) (k : List Char) :
    Option (List Char) :=
  match opts with
  | [] => none
  | (k2, v) :: rest => if k2 = k then some v else lookupOpt rest k

/-- `buildAssigneeClause`: `none` stands for the nil catalog pointer. -/
def buildAssigneeClause (userID : List Char) (cat : Option propCatalog) :
    List Char :=
  match cat with
  | none => []
  | some c =>
    if c.PersonPropIDs.isEmpty && c.MultiPersonPropIDs.isEmpty then []
    else
      let personParts := c.PersonPropIDs.map (fun pid =>
        "json_extract(fields, '$.properties.".data ++ pid ++ "') = '".data
          ++ userID ++ "'".data)
      let multiParts := c.MultiPersonPropIDs.map (fun pid =>
        "EXISTS (SELECT 1 FROM json_each(json_extract(fields, '$.properties.".data
          ++ pid ++ "')) WHERE value = '".data ++ userID ++ "')".data)
      " AND (".data ++ joinL " OR ".data (personParts ++ multiParts) ++ ")".data

/-- The `doneSyn` synonym list shared by the open/done status clauses. -/
def doneSyn : List (List Char) := ["已完成".data, "完成".data, "DONE".data]

/-- The quoted option ids of the done-synonyms present in `opts`, in
`doneSyn` order (the source's `doneIDs` accumulation). -/
def doneIDsOf (opts : List (List Char × List Char)) : List (List Char) :=
  doneSyn.filterMap (fun v =>
    (lookupOpt opts (toUpperL v)).map (fun oid => "'".data ++ oid ++ "'".data))

/-- `buildStatusOpenClause`. -/
def buildStatusOpenClause (cat : Option propCatalog) : List Char :=
  match cat with
  | none => []
  | some c =>
    if c.StatusPropOptions.isEmpty then []
    else
      let parts := c.StatusPropOptions.map (fun p =>
        let ids := doneIDsOf p.2
        if !ids.isEmpty then
          "(json_extract(fields, '$.properties.".data ++ p.1
            ++ "') NOT IN (".data ++ joinL ",".data ids
            ++ ") OR json_extract(fields, '$.properties.".data ++ p.1
            ++ "') IS NULL)".data
        else
          "(json_extract(fields, '$.properties.".data ++ p.1
            ++ "') IS NULL)".data)
      " AND (".data ++ joinL " OR ".data parts ++ ")".data

/-- `buildStatusDoneClause`. -/
def buildStatusDoneClause (cat : Option propCatalog) : List Char :=
  match cat with
  | none => []
  | some c =>
    if c.StatusPropOptions.isEmpty then []
    else
      let parts := c.StatusPropOptions.filterMap (fun p =>
        let ids := doneIDsOf p.2
        if ids.isEmpty then none
        else some ("json_extract(fields, '$.properties.".data ++ p.1
          ++ "') IN (".data ++ joinL ",".data ids ++ ")".data))
      if parts.isEmpty then []
      else " AND (".data ++ joinL " OR ".data parts ++ ")".data

/-- The `progSyn` synonym list of `buildStatusProgressClause`. -/
def progSyn : List (List Char) := ["进行中".data, "处理中".data, "IN PROGRESS".data]

/-- The quoted option ids of the progress-synonyms present in `opts`. -/
def progIDsOf (opts : List (List Char × List Char)) : List (List Char) :=
  progSyn.filterMap (fun v =>
    (lookupOpt opts (toUpperL v)).map (fun oid => "'".data ++ oid ++ "'".data))

/-- `buildStatusProgressClause`. -/
def buildStatusProgressClause (cat : Option propCatalog) : List Char :=
  match cat with
  | none => []
  | some c =>
    if c.StatusPropOptions.isEmpty then []
    else
      let parts := c.StatusPropOptions.filterMap (fun p =>
        let ids := progIDsOf p.2
        if ids.isEmpty then none
        else some ("json_extract(fields, '$.properties.".data ++ p.1
          ++ "') IN (".data ++ joinL ",".data ids ++ ")".data))
      if parts.isEmpty then []
      else " AND (".data ++ joinL " OR ".data parts ++ ")".data

/-- `buildOverdueClause`: date-property deadline predicates, then the
not-done status clause appended. -/
def buildOverdueClause (cat : Option propCatalog) : List Char :=
  let parts := match cat with
    | none => []
    | some c => c.DatePropIDs.map (fun did =>
        "(json_extract(json_extract(fields, '$.properties.".data ++ did
          ++ "'), '$.from') IS NOT NULL AND json_extract(json_extract(fields, '$.properties.".data
          ++ did ++ "'), '$.from') < (strftime('%s','now')*1000))".data)
  let clause := if parts.isEmpty then ([] : List Char)
    else " AND (".data ++ joinL " OR ".data parts ++ ")".data
  clause ++ buildStatusOpenClause cat

/-- The shared head of every template SELECT of `generateSQL`. -/
def sqlSelectHead : List Char :=
  "SELECT id, title, board_id, fields, update_at FROM blocks WHERE type='card' AND delete_at=0 ".data

/-- The shared tail of every template SELECT of `generateSQL`. -/
def sqlOrderTail : List Char := " ORDER BY update_at DESC LIMIT 50".data

/-- The statement built by the my-tasks template branch of `generateSQL`. -/
def templateMyTasksSQL (userID : List Char) (cat : Option propCatalog) :
    List Char :=
  sqlSelectHead ++ buildAssigneeClause userID cat ++ sqlOrderTail

/-- The statement built by the to-do/open template branch of `generateSQL`. -/
def templateOpenSQL (userID : List Char) (cat : Option propCatalog) :
    List Char :=
  sqlSelectHead ++ buildAssigneeClause userID cat ++ buildStatusOpenClause cat
    ++ sqlOrderTail

/-- The statement built by the done template branch of `generateSQL`. -/
def templateDoneSQL (userID : List Char) (cat : Option propCatalog) :
    List Char :=
  sqlSelectHead ++ buildAssigneeClause userID cat ++ buildStatusDoneClause cat
    ++ sqlOrderTail

/-- The statement built by the in-progress template branch of `generateSQL`. -/
def templateProgressSQL (userID : List Char) (cat : Option propCatalog) :
    List Char :=
  sqlSelectHead ++ buildAssigneeClause userID cat
    ++ buildStatusProgressClause cat ++ sqlOrderTail

/-- The statement built by the overdue template branch of `generateSQL`. -/
def templateOverdueSQL (userID : List Char) (cat : Option propCatalog) :
    List Char :=
  sqlSelectHead ++ buildAssigneeClause userID cat ++ buildOverdueClause cat
    ++ sqlOrderTail

/-- The constant `intentChat`. -/
def intentChat : List Char := "chat".data

/-- The constant `intentQueryData`. -/
def intentQueryData : List Char := "query_data".data

/-- Observable events of one pipeline run, in chronological order. -/
inductive Event where
  | llmCall (prompt : List Char)
  | validatorCall (sqlText : List Char) (result : Option ValidateErr)
  | execCall (sqlText : List Char)
  deriving DecidableEq, Repr

/-- The error outcomes a pipeline run can surface (the source's static
errors; every failure of the external LLM call is `llmFailure`, every
failure of the database query is `execFailure`). -/
inductive RagErr where
  | llmFailure
  | intentIsChat
  | unknownIntent
  | execFailure
  | sqlEmpty
  | sqlNotSelect
  | sqlForbidden (kw : List Char)
  | sqlChars (ch : List Char)
  deriving DecidableEq, Repr

/-- The error `generateSQL` wraps a validator failure into. -/
def validateErrToRag : ValidateErr → RagErr
  | .emptySQL => .sqlEmpty
  | .notSelect => .sqlNotSelect
  | .forbiddenKeyword kw => .sqlForbidden kw
  | .forbiddenChars ch => .sqlChars ch

/-- The external effects of the pipeline: `llm` is `callQwenInternal`,
`exec` the database side of `executeQuery`, `discover` the result of
`discoverPropertyCatalog` (the error payloads are irrelevant and elided). -/
structure Oracles where
  llm : List Char → Except Unit (List Char)
  exec : List Char → Except Unit (List Char)
  discover : Except Unit propCatalog

/-- The keyword list `keys` of `classifyIntent`'s second rule. -/
def classifyKeys : List (List Char) :=
  ["查询".data, "代办".data, "进行中".data, "未完成".data, "完成".data,
   "已完成".data, "逾期".data, "过期".data, "截止".data, "到期".data]

/-- The classification prompt (the source's format string with the question
substituted for its `%s`). -/
def classifyPrompt (question : List Char) : List Char :=
  "你是一个分类器。请只输出一个词：chat 或 query_data。\n规则：\n- 当用户是在闲聊、问候、或没有明确要求查询项目数据时，输出 chat。\n- 当用户在请求和 Focalboard 项目数据相关的统计、筛选、列表、进度等查询时，输出 query_data。\n\n用户问题：\n".data
    ++ question ++ "\n\n只输出 chat 或 query_data，不要多余解释。".data

/-- `classifyIntent`: keyword rules first (no LLM call), then one LLM call
whose lower-cased trimmed output is matched by substring containment,
defaulting to `chat`.  Returns the result together with the LLM-call
events of the run. -/
def classifyIntent (o : Oracles) (question : List Char) :
    Except Unit (List Char) × List Event :=
  let q := toLowerL (trimL question)
  if containsL q "查询我的任务".data || containsL q "我的任务".data
      || (containsL q "任务".data && containsL q "我".data) then
    (.ok intentQueryData, [])
  else
    let hasKey := classifyKeys.any (fun k => containsL q k)
    if hasKey && containsL q "任务".data then
      (.ok intentQueryData, [])
    else
      match o.llm (classifyPrompt question) with
      | .error e => (.error e, [.llmCall (classifyPrompt question)])
      | .ok out =>
        let ans := toLowerL (trimL out)
        if containsL ans intentQueryData then
          (.ok intentQueryData, [.llmCall (classifyPrompt question)])
        else if containsL ans intentChat then
          (.ok intentChat, [.llmCall (classifyPrompt question)])
        else
          (.ok intentChat, [.llmCall (classifyPrompt question)])

/-- The constant `ragSchemaDDL`. -/
def ragSchemaDDL : List Char :=
  "\n-- boards: 看板\nCREATE TABLE boards (\n  id TEXT PRIMARY KEY,\n  team_id TEXT,\n  title TEXT,\n  description TEXT,\n  create_at INTEGER,\n  update_at INTEGER,\n  delete_at INTEGER\n);\n\n-- blocks: 不同内容块（包括卡片、分组、属性等），其中 type='card' 代表卡片\nCREATE TABLE blocks (\n  id TEXT PRIMARY KEY,\n  board_id TEXT,\n  parent_id TEXT,\n  root_id TEXT,\n  type TEXT,                 -- e.g. 'card', 'view', 'property'\n  title TEXT,\n  fields TEXT,               -- JSON string that may include assignee_id, status, due_date, etc.\n  create_at INTEGER,\n  update_at INTEGER,\n  delete_at INTEGER\n);\n\n-- 典型的查询：按用户筛选其卡片（assignee_id 在 blocks.fields JSON 内部）\n-- 例如在 sqlite 中：json_extract(fields, '$.assignee_id') = '<userID>'\n".data

/-- The Text-to-SQL prompt.  The source's `fmt.Sprintf` has two `%s` verbs
but three arguments `(userID, schema, question)`, so the DDL slot receives
the user id, the question slot receives the schema, and Go's `fmt` appends
the `%!(EXTRA ...)` marker carrying the question. -/
def genSQLPrompt (userID schema question : List Char) : List Char :=
  "你是一个 Text-to-SQL 助手。请根据给定的数据库结构 (DDL) 和用户问题，生成一个只读、安全的 SQL。\n要求：\n- 只生成单条 SELECT 语句，不要包含任何其它内容（不要包含注释、解释、分号）。\n- 根据数据库类型为 sqlite 来生成；注意卡片属性位于 blocks.fields.properties 下，键为动态属性ID，例如使用 json_extract(fields, '$.properties.<propID>') 访问。\n- 必须包含对用户 user_id 的约束：例如使用人员属性（person 或 multiPerson）筛选分配给该用户的卡片。\n- 如果问题涉及看板或卡片统计，请合理连接 boards 与 blocks（type='card' 代表卡片）。\n- 尽量只返回必要的字段：例如卡片 id、title、board_id、状态、到期时间、更新时间等。\n- 确保 WHERE 子句只读安全，不要使用子查询去修改数据。\n\n数据库结构（DDL）：\n".data
    ++ userID ++ "\n\n用户问题：\n".data ++ schema
    ++ "\n\n只输出最终 SQL（仅一行 SELECT 开头的语句），不要任何其它文字。".data
    ++ "%!(EXTRA string=".data ++ question ++ ")".data

/-- Whitespace of the regexp class `\s` (RE2: `[\t\n\f\r ]`). -/
def isSpaceRe (c : Char) : Bool :=
  c == '\t' || c == '\n' || c == '\x0c' || c == '\r' || c == ' '

/-- Everything before the first occurrence of three backquotes, `none` when
there is none (the lazy `[\s\S]*?` capture's extent). -/
def takeUntilFence : List Char → Option (List Char)
  | [] => none
  | c :: cs =>
    if hasPrefixL (c :: cs) "```".data then some []
    else (takeUntilFence cs).map (fun r => c :: r)

/-- Try to complete the fenced-SQL match right after a `\x60\x60\x60sql`
opener: skip `\s*`, require `SELECT`, capture lazily up to the closing
fence. -/
def fencedAt (s : List Char) : Option (List Char) :=
  let rest := s.dropWhile isSpaceRe
  if hasPrefixL rest "SELECT".data then takeUntilFence rest else none

/-- Leftmost match of the source's fenced-SQL regular expression, returning
the first capture group. -/
def extractFenced : List Char → Option (List Char)
  | [] => none
  | c :: cs =>
    if hasPrefixL (c :: cs) "```sql".data then
      match fencedAt ((c :: cs).drop 6) with
      | some cap => some cap
      | none => extractFenced cs
    else extractFenced cs

/-- `strings.Split text "\n"`. -/
def splitNL : List Char → List (List Char)
  | [] => [[]]
  | c :: cs =>
    if c == '\n' then [] :: splitNL cs
    else
      match splitNL cs with
      | [] => [[c]]
      | l :: ls => (c :: l) :: ls

/-- `strings.TrimRight s ";"`. -/
def trimRightSemis (s : List Char) : List Char :=
  (s.reverse.dropWhile (fun c => c == ';')).reverse

/-- The first line whose trimmed text upper-cases to a SELECT, with its
trailing semicolons removed. -/
def firstSelectLine : List (List Char) → Option (List Char)
  | [] => none
  | ln :: rest =>
    let t := trimL ln
    if hasPrefixL (toUpperL t) "SELECT".data then some (trimRightSemis t)
    else firstSelectLine rest

/-- `extractSQL`: fenced block first, then the first SELECT line, then the
raw text with trailing semicolons removed. -/
def extractSQL (text : List Char) : List Char :=
  match extractFenced text with
  | some cap => trimL cap
  | none =>
    match firstSelectLine (splitNL text) with
    | some ln => ln
    | none => trimRightSemis text

/-- The validate-and-return tail every branch of `generateSQL` ends with:
run the statement through `validateReadOnlySQL`, return the validation
error or the statement, recording the validator call after the branch's
earlier events `pre`. -/
def genBranch (sqlText : List Char) (pre : List Event) :
    Except RagErr (List Char) × List Event :=
  match validateReadOnlySQL sqlText with
  | some e => (.error (validateErrToRag e), pre ++ [.validatorCall sqlText (some e)])
  | none => (.ok sqlText, pre ++ [.validatorCall sqlText none])

/-- `generateSQL`: the five template branches guarded by keyword tests on
the lower-cased trimmed question, the LLM fallback strategy last; every
produced statement runs through `validateReadOnlySQL` before being
returned.  A `discoverPropertyCatalog` failure degrades to the nil
catalog.  Also returns the run's events. -/
def generateSQL (o : Oracles) (userID question : List Char) :
    Except RagErr (List Char) × List Event :=
  let cat : Option propCatalog :=
    match o.discover with
    | .ok c => some c
    | .error _ => none
  let q := toLowerL (trimL question)
  if containsL q "查询我的任务".data || containsL q "我的任务".data
      || (containsL q "任务".data && containsL q "我".data) then
    genBranch (templateMyTasksSQL userID cat) []
  else if containsL q "代办".data || containsL q "未完成".data
      || containsL q "待办".data then
    genBranch (templateOpenSQL userID cat) []
  else if containsL q "已完成".data
      || (containsL q "完成".data && !containsL q "未完成".data) then
    genBranch (templateDoneSQL userID cat) []
  else if containsL q "进行中".data then
    genBranch (templateProgressSQL userID cat) []
  else if containsL q "逾期".data || containsL q "过期".data
      || containsL q "过了截止日期".data || containsL q "截止日期已过".data
      || containsL q "已过期".data then
    genBranch (templateOverdueSQL userID cat) []
  else
    let prompt := genSQLPrompt userID ragSchemaDDL question
    match o.llm prompt with
    | .error _ => (.error .llmFailure, [.llmCall prompt])
    | .ok out => genBranch (extractSQL (trimL out)) [.llmCall prompt]

/-- The fixed fallback statement of `PrepareRAGResponse`. -/
def fallbackSQL : List Char :=
  "SELECT id, title, board_id, fields, update_at FROM blocks WHERE type='card' AND delete_at=0 ORDER BY update_at DESC LIMIT 50".data

/-- `buildFinalPrompt`: deterministic string assembly of the final prompt. -/
def buildFinalPrompt (question contextData : List Char) : List Char :=
  "你是一个 Focal Board 任务助手。请根据我提供的 JSON 实时数据，为用户生成一份简短、友好、易于阅读的中文任务总结。\n\n【重要规则】:\n1. **不要**复述或打印原始的 JSON 数据。\n2. **直接**开始你的总结性回答 (例如：'你好！根据你的任务情况...')。\n3. 使用表情符号 (✅, 🚀) 来组织你的回答。\n4. 如果数据中有逾期的任务，请明确指出。\n\n用户问题: \"".data
    ++ question ++ "\"\n\n实时数据 (JSON 格式):\n".data ++ contextData
    ++ "\n\n你的回答 (请直接开始总结):\n".data

/-- `PrepareRAGResponse`: intent gate, SQL generation, execution, the
fixed fallback query when the primary serialization trims to `[]`, and
final prompt assembly.  Returns the result and the events of the run. -/
def PrepareRAGResponse (o : Oracles) (userID question : List Char) :
    Except RagErr (List Char) × List Event :=
  let c := classifyIntent o question
  match c.1 with
  | .error _ => (.error .llmFailure, c.2)
  | .ok intent =>
    if intent = intentChat then (.error .intentIsChat, c.2)
    else if intent ≠ intentQueryData then (.error .unknownIntent, c.2)
    else
      let g := generateSQL o userID question
      match g.1 with
      | .error e => (.error e, c.2 ++ g.2)
      | .ok sqlText =>
        match o.exec sqlText with
        | .error _ => (.error .execFailure, c.2 ++ g.2 ++ [.execCall sqlText])
        | .ok contextJSON =>
          if trimL contextJSON = "[]".data then
            match o.exec fallbackSQL with
            | .ok fbJSON =>
              (.ok (buildFinalPrompt question fbJSON),
               c.2 ++ g.2 ++ [.execCall sqlText, .execCall fallbackSQL])
            | .error _ =>
              (.ok (buildFinalPrompt question contextJSON),
               c.2 ++ g.2 ++ [.execCall sqlText, .execCall fallbackSQL])
          else
            (.ok (buildFinalPrompt question contextJSON),
             c.2 ++ g.2 ++ [.execCall sqlText])

/-- `AIStreamChunk` of the source (one outbound SSE chunk). -/
structure AIStreamChunk where
  content : List Char
  done : Bool
  deriving DecidableEq, Repr

/-- One element of `OpenAIResponse.Choices` (the fields the streaming loop
reads: the delta's content and the finish reason). -/
structure OpenAIChoice where
  deltaContent : List Char
  finishReason : List Char
  deriving DecidableEq, Repr

/-- `OpenAIResponse` as the streaming loop consumes it. -/
structure OpenAIResp where
  choices : List OpenAIChoice
  deriving DecidableEq, Repr

/-- The scanner loop of `handleAIChatStream` over the upstream lines:
`parse` models `json.Unmarshal` (`none` = decode error, which the loop
skips).  A line without the `data: ` marker is skipped; the `[DONE]`
payload stops the loop; a non-empty delta emits one `done:false` chunk;
a populated finish reason stops the loop after the emission. -/
def processLines (parse : List Char → Option OpenAIResp) :
    List (List Char) → List AIStreamChunk
  | [] => []
  | line :: rest =>
    if hasPrefixL line "data: ".data then
      let data := line.drop 6
      if data = "[DONE]".data then []
      else
        match parse data with
        | none => processLines parse rest
        | some oresp =>
          match oresp.choices with
          | [] => processLines parse rest
          | ch :: _ =>
            (if ch.deltaContent ≠ [] then [⟨ch.deltaContent, false⟩] else [])
              ++ (if ch.finishReason ≠ [] then [] else processLines parse rest)
    else processLines parse rest

/-- The outbound chunk sequence of one `handleAIChatStream` request that
reached the stream-reading loop: the loop's chunks, then the terminal
chunk, emitted whether or not the upstream read ended in an error
(`readErr` — the source only logs it). -/
def handleAIChatStreamChunks (parse : List Char → Option OpenAIResp)
    (lines : List (List Char)) (_readErr : Bool) : List AIStreamChunk :=
  processLines parse lines ++ [⟨[], true⟩]

/-- A scalar cell value of a materialized row (the scalar shapes named by
the spec for `executeQuery`: text, integer, null). -/
inductive JValue where
  | jstr (s : List Char)
  | jint (n : Int)
  | jnull
  deriving DecidableEq, Repr

/-- One row as a column-name-keyed record, in column order. -/
abbrev RowRecord : Type := List (List Char × JValue)

/-- Lower-case hexadecimal digit, as `encoding/json` writes `\u` escapes. -/
def hexDigit (n : Nat) : Char :=
  if n < 10 then Char.ofNat (48 + n) else Char.ofNat (87 + n)

/-- The escape `encoding/json` applies to one character of a string value
(HTML-escaping enabled, as in the source's plain `json.Marshal`). -/
def escGo (c : Char) : List Char :=
  if c = '"' then ['\\', '"']
  else if c = '\\' then ['\\', '\\']
  else if c = '\n' then ['\\', 'n']
  else if c = '\r' then ['\\', 'r']
  else if c = '\t' then ['\\', 't']
  else if c.toNat < 0x20 || c = '<' || c = '>' || c = '&' then
    ['\\', 'u', '0', '0', hexDigit (c.toNat / 16), hexDigit (c.toNat % 16)]
  else if c.toNat = 0x2028 || c.toNat = 0x2029 then
    ['\\', 'u', '2', '0', '2', hexDigit (c.toNat % 16)]
  else [c]

/-- Escape every character of a string value. -/
def escString : List Char → List Char
  | [] => []
  | c :: cs => escGo c ++ escString cs

/-- A JSON string literal with its quotes. -/
def marshalString (s : List Char) : List Char :=
  '"' :: escString s ++ ['"']

/-- Big-endian decimal digits of a natural number (fuel-based as in
`Nat.toDigits`; the fuel `n + 1` always suffices). -/
def natToDigitsAux : Nat → Nat → List Char → List Char
  | 0, _, acc => acc
  | fuel + 1, n, acc =>
    if n < 10 then Char.ofNat (48 + n) :: acc
    else natToDigitsAux fuel (n / 10) (Char.ofNat (48 + n % 10) :: acc)

/-- Decimal digits of a natural number. -/
def natToDigits (n : Nat) : List Char := natToDigitsAux (n + 1) n []

/-- A JSON number for an integer, as `encoding/json` prints `int64`. -/
def marshalInt (n : Int) : List Char :=
  if n < 0 then '-' :: natToDigits n.natAbs else natToDigits n.toNat

/-- A serialized scalar cell. -/
def marshalValue : JValue → List Char
  | .jstr s => marshalString s
  | .jint n => marshalInt n
  | .jnull => "null".data

/-- A serialized record member `"key":value`. -/
def marshalMember (m : List Char × JValue) : List Char :=
  marshalString m.1 ++ ':' :: marshalValue m.2

/-- A serialized row object. -/
def marshalRecord (r : RowRecord) : List Char :=
  '{' :: joinL ",".data (r.map marshalMember) ++ ['}']

/-- The serialization `executeQuery` returns: `json.Marshal` of the ordered
row slice (`[]` for no rows, elements separated by commas). -/
def marshalResultSet (rs : List RowRecord) : List Char :=
  '[' :: joinL ",".data (rs.map marshalRecord) ++ [']']

/-- An ASCII decimal digit. -/
def isDigitChar (c : Char) : Bool := '0' ≤ c && c ≤ '9'

/-- The numeric value of one hexadecimal digit character. -/
def hexVal (c : Char) : Nat :=
  if '0' ≤ c && c ≤ '9' then c.toNat - 48
  else if 'a' ≤ c && c ≤ 'f' then c.toNat - 87
  else if 'A' ≤ c && c ≤ 'F' then c.toNat - 55
  else 0

/-- Parse the remainder of a JSON string literal (the opening quote already
consumed): the decoded content and the rest of the input. -/
def parseJString : List Char → Option (List Char × List Char)
  | [] => none
  | c :: cs =>
    if c = '"' then some ([], cs)
    else if c = '\\' then
      match cs with
      | [] => none
      | e :: cs2 =>
        if e = '"' then (parseJString cs2).map (fun p => ('"' :: p.1, p.2))
        else if e = '\\' then (parseJString cs2).map (fun p => ('\\' :: p.1, p.2))
        else if e = '/' then (parseJString cs2).map (fun p => ('/' :: p.1, p.2))
        else if e = 'b' then (parseJString cs2).map (fun p => ('\x08' :: p.1, p.2))
        else if e = 'f' then (parseJString cs2).map (fun p => ('\x0c' :: p.1, p.2))
        else if e = 'n' then (parseJString cs2).map (fun p => ('\n' :: p.1, p.2))
        else if e = 'r' then (parseJString cs2).map (fun p => ('\r' :: p.1, p.2))
        else if e = 't' then (parseJString cs2).map (fun p => ('\t' :: p.1, p.2))
        else if e = 'u' then
          match cs2 with
          | h1 :: h2 :: h3 :: h4 :: cs3 =>
            (parseJString cs3).map (fun p =>
              (Char.ofNat (((hexVal h1 * 16 + hexVal h2) * 16 + hexVal h3) * 16
                + hexVal h4) :: p.1, p.2))
          | _ => none
        else none
    else (parseJString cs).map (fun p => (c :: p.1, p.2))

/-- Split the longest digit run off the front of the input. -/
def spanDigits : List Char → List Char × List Char
  | [] => ([], [])
  | c :: cs =>
    if isDigitChar c then
      let p := spanDigits cs
      (c :: p.1, p.2)
    else ([], c :: cs)

/-- The value of big-endian decimal digits. -/
def digitsVal (ds : List Char) : Nat :=
  ds.foldl (fun a c => a * 10 + (c.toNat - 48)) 0

/-- Parse a JSON integer (optional minus sign, then digits). -/
def parseJInt (s : List Char) : Option (Int × List Char) :=
  if hasPrefixL s "-".data then
    let p := spanDigits (s.drop 1)
    if p.1 = [] then none else some (-(digitsVal p.1 : Int), p.2)
  else
    let p := spanDigits s
    if p.1 = [] then none else some ((digitsVal p.1 : Int), p.2)

/-- Parse one scalar JSON value of the fragment `executeQuery` emits. -/
def parseJValue (s : List Char) : Option (JValue × List Char) :=
  if hasPrefixL s "\"".data then
    (parseJString (s.drop 1)).map (fun p => (.jstr p.1, p.2))
  else if hasPrefixL s "null".data then some (.jnull, s.drop 4)
  else (parseJInt s).map (fun p => (.jint p.1, p.2))

/-- Parse the members of a non-empty JSON object, the opening brace (and for
later members the comma) already consumed; the fuel bounds the member
count. -/
def parseJMembers : Nat → List Char → Option (RowRecord × List Char)
  | 0, _ => none
  | fuel + 1, s =>
    match s with
    | '"' :: s1 =>
      match parseJString s1 with
      | none => none
      | some (k, s2) =>
        match s2 with
        | ':' :: s3 =>
          match parseJValue s3 with
          | none => none
          | some (v, s4) =>
            match s4 with
            | ',' :: s5 => (parseJMembers fuel s5).map (fun p => ((k, v) :: p.1, p.2))
            | '}' :: s5 => some ([(k, v)], s5)
            | _ => none
        | _ => none
    | _ => none

/-- Parse one JSON object of the fragment. -/
def parseJRecord (fuel : Nat) (s : List Char) : Option (RowRecord × List Char) :=
  match s with
  | '{' :: s1 =>
    match s1 with
    | '}' :: s2 => some ([], s2)
    | _ => parseJMembers fuel s1
  | _ => none

/-- Parse the elements of a non-empty JSON array of objects. -/
def parseJElems : Nat → List Char → Option (List RowRecord × List Char)
  | 0, _ => none
  | fuel + 1, s =>
    match parseJRecord fuel s with
    | none => none
    | some (r, s2) =>
      match s2 with
      | ',' :: s3 => (parseJElems fuel s3).map (fun p => (r :: p.1, p.2))
      | ']' :: s3 => some ([r], s3)
      | _ => none

/-- Re-parse a serialized result set: a JSON array of flat objects, which
must consume the whole text. -/
def parseResultSet (s : List Char) : Option (List RowRecord) :=
  match s with
  | '[' :: s1 =>
    match s1 with
    | ']' :: s2 => if s2 = [] then some [] else none
    | _ =>
      match parseJElems s1.length s1 with
      | some (rs, rest) => if rest = [] then some rs else none
      | none => none
  | _ => none

/-- Scan of a trace for the claimed invariant: every executor call's
statement was previously the subject of a validator call that returned no
error (`seen` accumulates the statements validated so far). -/
def execsValidatedBefore (seen : List (List Char)) : List Event → Bool
  | [] => true
  | .llmCall _ :: rest => execsValidatedBefore seen rest
  | .validatorCall sql none :: rest => execsValidatedBefore (sql :: seen) rest
  | .validatorCall _ (some _) :: rest => execsValidatedBefore seen rest
  | .execCall sql :: rest => seen.contains sql && execsValidatedBefore seen rest

/-- An interpolated fragment (already upper-cased) is clean when it holds no
forbidden keyword as a whole word and none of the forbidden substrings. -/
def cleanFragment (s : List Char) : Bool :=
  forbiddenKeywords.all (fun kw => !containsWordL s kw)
  && forbiddenCharSeqs.all (fun ch => !containsL s ch)

/-- Every identifier a catalog can inject into a template statement (person,
multi-person, status and date property ids, and status option ids) is
clean. -/
def catalogClean (cat : propCatalog) : Bool :=
  cat.PersonPropIDs.all (fun pid => cleanFragment (toUpperL pid))
  && cat.MultiPersonPropIDs.all (fun pid => cleanFragment (toUpperL pid))
  && cat.StatusPropOptions.all (fun p => cleanFragment (toUpperL p.1)
      && p.2.all (fun kv => cleanFragment (toUpperL kv.2)))
  && cat.DatePropIDs.all (fun did => cleanFragment (toUpperL did))

/-- The catalog-cleanliness condition lifted to the optional catalog. -/
def catalogCleanOpt : Option propCatalog → Bool
  | none => true
  | some c => catalogClean c

/-- A junction character of the template statements: not a word character
(so whole-word keyword matches cannot cross it) and not part of any
forbidden character sequence. -/
def safeChar (c : Char) : Bool :=
  !isWordChar c && !(c == ';') && !(c == '-') && !(c == '/') && !(c == '*')

/-- Shape of every clause a template inserts after the fixed WHERE text:
either empty, or a space followed by a clean fragment. -/
def cleanClause (s : List Char) : Prop :=
  s = [] ∨ ∃ rest, s = ' ' :: rest ∧ cleanFragment (toUpperL rest) = true

/-- Catalog with a single person property named `assignee` (the end-to-end
scenario of the spec). -/
def assigneeCat : propCatalog := ⟨["assignee".data], [], [], []⟩

/-- The statement the my-tasks template produces for user `u1` and
`assigneeCat` (note the two spaces around the interpolated clause). -/
def c7sql : List Char :=
  "SELECT id, title, board_id, fields, update_at FROM blocks WHERE type='card' AND delete_at=0  AND (json_extract(fields, '$.properties.assignee') = 'u1') ORDER BY update_at DESC LIMIT 50".data

/-- The empty catalog. -/
def emptyCat : propCatalog := ⟨[], [], [], []⟩

/-- Oracles of a run whose primary query returns no rows and whose fallback
query succeeds (the LLM is never needed: the question below matches a
keyword rule). -/
def fbOracles : Oracles :=
  ⟨fun _ => .error (),
   fun s => if s = fallbackSQL then .ok "[\x7b\x7d]".data else .ok "[]".data,
   .ok emptyCat⟩

/-- Oracles of a run whose primary query returns no rows and whose fallback
query fails. -/
def fbFailOracles : Oracles :=
  ⟨fun _ => .error (),
   fun s => if s = fallbackSQL then .error () else .ok "[]".data,
   .ok emptyCat⟩

/-- An LLM oracle answering `chat` to every prompt. -/
def chatLLMOracles : Oracles :=
  ⟨fun _ => .ok "chat".data, fun _ => .error (), .error ()⟩

/-- Catalog of the C9 counterexample: one clean person property id. -/
def c9cat : propCatalog := ⟨["p".data], [], [], []⟩

/-- Oracles whose discovery returns `c9cat` (LLM and executor unused by the
template branches). -/
def c9Oracles : Oracles := ⟨fun _ => .error (), fun _ => .error (), .ok c9cat⟩

/-- Upstream JSON decoder of the three-delta streaming scenario: payloads
`d1 d2 d3` are content deltas, `d4` carries only a finish reason, and any
other payload fails to decode. -/
def scenarioParse (d : List Char) : Option OpenAIResp :=
  if d = "d1".data then some ⟨[⟨"你".data, []⟩]⟩
  else if d = "d2".data then some ⟨[⟨"好".data, []⟩]⟩
  else if d = "d3".data then some ⟨[⟨"!".data, []⟩]⟩
  else if d = "d4".data then some ⟨[⟨[], "stop".data⟩]⟩
  else none

/-- Upstream lines of the three-delta scenario (a trailing line after the
finish-reason event must be ignored). -/
def scenarioLines : List (List Char) :=
  ["data: d1".data, "data: d2".data, "data: d3".data, "data: d4".data,
   "data: d5".data]

/-- A decoder treating every payload as a single content delta (used to
state order preservation for an all-delta upstream). -/
def allDeltaParse (d : List Char) : Option OpenAIResp := some ⟨[⟨d, []⟩]⟩

/-! ## String toolkit lemmas -/

theorem hasPrefixL_iff (p : List Char) : ∀ s, hasPrefixL s p = true ↔ ∃ t, s = p ++ t := by
  induction p with
  | nil => intro s; simp [hasPrefixL]
  | cons d ds ih =>
    intro s
    cases s with
    | nil => simp [hasPrefixL]
    | cons c cs =>
      simp only [hasPrefixL, Bool.and_eq_true, beq_iff_eq, ih, List.cons_append]
      constructor
      · rintro ⟨rfl, t, rfl⟩
        exact ⟨t, rfl⟩
      · rintro ⟨t, h⟩
        rw [List.cons_eq_cons] at h
        exact ⟨h.1, t, h.2⟩

theorem containsL_iff (sub : List Char) :
    ∀ s, containsL s sub = true ↔ ∃ A B, s = A ++ sub ++ B := by
  intro s
  induction s with
  | nil =>
    cases sub with
    | nil => simp [containsL, hasPrefixL]
    | cons d ds => simp [containsL, hasPrefixL]
  | cons c cs ih =>
    simp only [containsL, Bool.or_eq_true, hasPrefixL_iff, ih]
    constructor
    · rintro (⟨t, h⟩ | ⟨A, B, h⟩)
      · exact ⟨[], t, by simpa using h⟩
      · exact ⟨c :: A, B, by simp [h]⟩
    · rintro ⟨A, B, h⟩
      cases A with
      | nil => exact Or.inl ⟨B, by simpa using h⟩
      | cons a A' =>
        rw [List.cons_append, List.cons_append, List.cons_eq_cons] at h
        exact Or.inr ⟨A', B, h.2⟩

theorem containsL_map (f : Char → Char) (s sub : List Char)
    (h : containsL s sub = true) : containsL (s.map f) (sub.map f) = true := by
  rw [containsL_iff] at h ⊢
  obtain ⟨A, B, rfl⟩ := h
  exact ⟨A.map f, B.map f, by simp⟩

theorem containsL_dropWhile (p : Char → Bool) (sub : List Char)
    (hne : sub ≠ []) (hsub : ∀ c ∈ sub, p c = false) :
    ∀ s, containsL s sub = true → containsL (s.dropWhile p) sub = true := by
  intro s
  induction s with
  | nil =>
    intro h
    simpa using h
  | cons c cs ih =>
    intro h
    rw [List.dropWhile_cons]
    by_cases hp : p c = true
    · rw [if_pos hp]
      apply ih
      simp only [containsL, Bool.or_eq_true] at h
      rcases h with h | h
      · exfalso
        cases sub with
        | nil => exact hne rfl
        | cons d ds =>
          simp only [hasPrefixL, Bool.and_eq_true, beq_iff_eq] at h
          have := hsub d (by simp)
          rw [← h.1] at this
          rw [this] at hp
          exact Bool.false_ne_true hp
      · exact h
    · rw [if_neg hp]
      exact h

theorem containsL_reverse (s sub : List Char) (h : containsL s sub = true) :
    containsL s.reverse sub.reverse = true := by
  rw [containsL_iff] at h ⊢
  obtain ⟨A, B, rfl⟩ := h
  exact ⟨B.reverse, A.reverse, by simp⟩

theorem containsL_trimL (s sub : List Char) (hne : sub ≠ [])
    (hsub : ∀ c ∈ sub, isSpaceGo c = false) (h : containsL s sub = true) :
    containsL (trimL s) sub = true := by
  unfold trimL
  have h1 := containsL_dropWhile isSpaceGo sub hne hsub s h
  have h2 := containsL_reverse _ _ h1
  have h3 := containsL_dropWhile isSpaceGo sub.reverse
    (by simpa using hne) (by intro c hc; exact hsub c (List.mem_reverse.mp hc)) _ h2
  have h4 := containsL_reverse _ _ h3
  simpa using h4

/-! ## C1: the SQL safety validator -/

/-- C1: `validateReadOnlySQL` errors on the empty string; errors with
not-a-SELECT whenever the upper-cased trimmed text does not start with
SELECT; errors naming a contained forbidden keyword when the prefix test
passes and some keyword occurs as a whole word (even if a forbidden
substring is present too, so keyword errors win over character errors);
errors naming a contained forbidden character sequence when all earlier
rules pass; accepts the spec's example SELECT; and decides the spec's two
rejection examples as stated (semicolon-plus-DROP is reported as the
keyword, a non-SELECT as not-a-SELECT — the rule order with the first
failure winning). -/
theorem C1_validateReadOnlySQL_rules :
    validateReadOnlySQL [] = some .emptySQL
  ∧ (∀ s, s ≠ [] → hasPrefixL (toUpperL (trimL s)) "SELECT".data = false →
      validateReadOnlySQL s = some .notSelect)
  ∧ (∀ s, s ≠ [] → hasPrefixL (toUpperL (trimL s)) "SELECT".data = true →
      (∃ kw ∈ forbiddenKeywords, containsWordL (toUpperL (trimL s)) kw = true) →
      ∃ kw, validateReadOnlySQL s = some (.forbiddenKeyword kw)
        ∧ kw ∈ forbiddenKeywords ∧ containsWordL (toUpperL (trimL s)) kw = true)
  ∧ (∀ s, s ≠ [] → hasPrefixL (toUpperL (trimL s)) "SELECT".data = true →
      (∀ kw ∈ forbiddenKeywords, containsWordL (toUpperL (trimL s)) kw = false) →
      (∃ ch ∈ forbiddenCharSeqs, containsL (toUpperL (trimL s)) ch = true) →
      ∃ ch, validateReadOnlySQL s = some (.forbiddenChars ch)
        ∧ ch ∈ forbiddenCharSeqs ∧ containsL (toUpperL (trimL s)) ch = true)
  ∧ validateReadOnlySQL "SELECT id, title FROM blocks WHERE type='card'".data = none
  ∧ validateReadOnlySQL "SELECT * FROM blocks; DROP TABLE boards".data
      = some (.forbiddenKeyword "DROP".data)
  ∧ validateReadOnlySQL "UPDATE blocks SET title='x'".data = some .notSelect := by
  refine ⟨by decide, ?_, ?_, ?_, by decide, by decide, by decide⟩
  · intro s hs hpre
    simp [validateReadOnlySQL, hs, hpre]
  · intro s hs hpre hex
    obtain ⟨kw, hmem, hp⟩ := hex
    have hsome : (forbiddenKeywords.find?
        (fun kw => containsWordL (toUpperL (trimL s)) kw)).isSome := by
      rw [List.find?_isSome]
      exact ⟨kw, hmem, hp⟩
    obtain ⟨kw0, hfind⟩ := Option.isSome_iff_exists.mp hsome
    refine ⟨kw0, ?_, List.mem_of_find?_eq_some hfind, List.find?_some hfind⟩
    simp [validateReadOnlySQL, hs, hpre, hfind]
  · intro s hs hpre hall hex
    obtain ⟨ch, hmem, hp⟩ := hex
    have hknone : forbiddenKeywords.find?
        (fun kw => containsWordL (toUpperL (trimL s)) kw) = none := by
      rw [List.find?_eq_none]
      intro x hx
      simp [hall x hx]
    have hsome : (forbiddenCharSeqs.find?
        (fun ch => containsL (toUpperL (trimL s)) ch)).isSome := by
      rw [List.find?_isSome]
      exact ⟨ch, hmem, hp⟩
    obtain ⟨ch0, hfind⟩ := Option.isSome_iff_exists.mp hsome
    refine ⟨ch0, ?_, List.mem_of_find?_eq_some hfind, List.find?_some hfind⟩
    simp [validateReadOnlySQL, hs, hpre, hknone, hfind]

/-- Witness for C1: the not-a-SELECT rule applied at a concrete input. -/
theorem C1_validateReadOnlySQL_rules_witness :
    validateReadOnlySQL "DELETE FROM blocks".data = some .notSelect :=
  C1_validateReadOnlySQL_rules.2.1 "DELETE FROM blocks".data (by decide) (by decide)

/-! ## The intent classifier -/

theorem classifyIntent_rule_fires (o : Oracles) (question : List Char)
    (h : (containsL (toLowerL (trimL question)) "查询我的任务".data
        || containsL (toLowerL (trimL question)) "我的任务".data
        || (containsL (toLowerL (trimL question)) "任务".data
            && containsL (toLowerL (trimL question)) "我".data)
        || ((classifyKeys.any fun k => containsL (toLowerL (trimL question)) k)
            && containsL (toLowerL (trimL question)) "任务".data)) = true) :
    classifyIntent o question = (.ok intentQueryData, []) := by
  rcases Bool.or_eq_true_iff.mp h with hX | hY
  · simp [classifyIntent, hX]
  · by_cases hX2 : (containsL (toLowerL (trimL question)) "查询我的任务".data
        || containsL (toLowerL (trimL question)) "我的任务".data
        || (containsL (toLowerL (trimL question)) "任务".data
            && containsL (toLowerL (trimL question)) "我".data)) = true
    · simp [classifyIntent, hX2]
    · simp [classifyIntent, Bool.not_eq_true .. ▸ hX2, hY]

/-- C5: a question containing `我的任务` is classified as `query_data` with
no LLM call (empty event list); more generally any question passing the
keyword rules of the source (either rule block) is classified as
`query_data` with no LLM call, for every oracle. -/
theorem C5_classifyIntent_keyword :
    (∀ o question, containsL question "我的任务".data = true →
      classifyIntent o question = (.ok intentQueryData, []))
  ∧ (∀ o question,
      (containsL (toLowerL (trimL question)) "查询我的任务".data
        || containsL (toLowerL (trimL question)) "我的任务".data
        || (containsL (toLowerL (trimL question)) "任务".data
            && containsL (toLowerL (trimL question)) "我".data)
        || ((classifyKeys.any fun k => containsL (toLowerL (trimL question)) k)
            && containsL (toLowerL (trimL question)) "任务".data)) = true →
      classifyIntent o question = (.ok intentQueryData, [])) := by
  constructor
  · intro o question h
    have h1 : containsL (trimL question) "我的任务".data = true :=
      containsL_trimL _ _ (by decide) (by decide) h
    have h2 := containsL_map Char.toLower _ _ h1
    have h3 : ("我的任务".data).map Char.toLower = "我的任务".data := by decide
    rw [h3] at h2
    apply classifyIntent_rule_fires
    have : containsL (toLowerL (trimL question)) "我的任务".data = true := h2
    simp [this]
  · intro o question h
    exact classifyIntent_rule_fires o question h

/-- Witness for C5: the scenario question `查询我的任务` classifies as
`query_data` with no LLM call under an oracle whose LLM always fails. -/
theorem C5_classifyIntent_keyword_witness :
    classifyIntent fbOracles "查询我的任务".data = (.ok intentQueryData, []) :=
  C5_classifyIntent_keyword.1 fbOracles "查询我的任务".data (by decide)

/-- C6: when neither keyword rule fires, the classifier makes exactly one
LLM call; an LLM failure propagates as the run's error; an output whose
lower-cased trimmed text contains `query_data` yields `query_data`;
otherwise an output containing `chat` yields `chat`; and an output
containing neither token still yields `chat` without error. -/
theorem C6_classifyIntent_llm :
    ∀ o question,
    (containsL (toLowerL (trimL question)) "查询我的任务".data
        || containsL (toLowerL (trimL question)) "我的任务".data
        || (containsL (toLowerL (trimL question)) "任务".data
            && containsL (toLowerL (trimL question)) "我".data)) = false →
    ((classifyKeys.any fun k => containsL (toLowerL (trimL question)) k)
        && containsL (toLowerL (trimL question)) "任务".data) = false →
    (∀ e, o.llm (classifyPrompt question) = .error e →
        classifyIntent o question = (.error e, [.llmCall (classifyPrompt question)]))
    ∧ (∀ out, o.llm (classifyPrompt question) = .ok out →
        (containsL (toLowerL (trimL out)) intentQueryData = true →
          classifyIntent o question
            = (.ok intentQueryData, [.llmCall (classifyPrompt question)]))
        ∧ (containsL (toLowerL (trimL out)) intentQueryData = false →
            containsL (toLowerL (trimL out)) intentChat = true →
          classifyIntent o question
            = (.ok intentChat, [.llmCall (classifyPrompt question)]))
        ∧ (containsL (toLowerL (trimL out)) intentQueryData = false →
            containsL (toLowerL (trimL out)) intentChat = false →
          classifyIntent o question
            = (.ok intentChat, [.llmCall (classifyPrompt question)]))) := by
  intro o question h1 h2
  constructor
  · intro e he
    simp [classifyIntent, h1, h2, he]
  · intro out hout
    refine ⟨?_, ?_, ?_⟩
    · intro hq
      simp [classifyIntent, h1, h2, hout, hq]
    · intro hq hc
      simp [classifyIntent, h1, h2, hout, hq, hc]
    · intro hq hc
      simp [classifyIntent, h1, h2, hout, hq, hc]

/-- Witness for C6: an LLM answering `chat` to the non-keyword question
`hello` makes the classifier return `chat` after one LLM call. -/
theorem C6_classifyIntent_llm_witness :
    classifyIntent chatLLMOracles "hello".data
      = (.ok intentChat, [.llmCall (classifyPrompt "hello".data)]) :=
  ((C6_classifyIntent_llm chatLLMOracles "hello".data (by decide) (by decide)).2
    "chat".data rfl).2.1 (by decide) (by decide)

/-! ## Pipeline structure lemmas -/

theorem classifyIntent_ok_cases (o : Oracles) (q : List Char) (r : List Char)
    (h : (classifyIntent o q).1 = .ok r) : r = intentChat ∨ r = intentQueryData := by
  simp only [classifyIntent] at h
  repeat' split at h
  all_goals simp_all

theorem classifyIntent_events (o : Oracles) (q : List Char) :
    ∀ e ∈ (classifyIntent o q).2, ∃ p, e = Event.llmCall p := by
  simp only [classifyIntent]
  repeat' split
  all_goals intro e he
  all_goals simp_all

theorem genBranch_ok (t : List Char) (pre : List Event) (sql : List Char)
    (h : (genBranch t pre).1 = .ok sql) :
    sql = t ∧ validateReadOnlySQL t = none := by
  unfold genBranch at h
  split at h <;> simp_all

theorem genBranch_error (t : List Char) (pre : List Event) (e : RagErr)
    (h : (genBranch t pre).1 = .error e) : ∃ ve, e = validateErrToRag ve := by
  unfold genBranch at h
  split at h <;> simp_all
  exact ⟨_, h.symm⟩

theorem genBranch_no_exec (t : List Char) (pre : List Event)
    (hpre : ∀ e ∈ pre, ∀ s, e ≠ Event.execCall s) :
    ∀ ev ∈ (genBranch t pre).2, ∀ s, ev ≠ Event.execCall s := by
  unfold genBranch
  split
  all_goals intro ev hev s
  all_goals rw [List.mem_append] at hev
  all_goals rcases hev with h | h
  · exact hpre ev h s
  · simp only [List.mem_singleton] at h
    simp [h]
  · exact hpre ev h s
  · simp only [List.mem_singleton] at h
    simp [h]

theorem generateSQL_ok_validated (o : Oracles) (uid q sql : List Char)
    (h : (generateSQL o uid q).1 = .ok sql) : validateReadOnlySQL sql = none := by
  simp only [generateSQL] at h
  repeat' split at h
  all_goals first
    | (obtain ⟨rfl, hv⟩ := genBranch_ok _ _ _ h; exact hv)
    | simp_all

theorem validateErrToRag_ne_unknown (ve : ValidateErr) :
    validateErrToRag ve ≠ .unknownIntent := by
  cases ve <;> simp [validateErrToRag]

theorem generateSQL_error_shape (o : Oracles) (uid q : List Char) (e : RagErr)
    (h : (generateSQL o uid q).1 = .error e) :
    e = .llmFailure ∨ ∃ ve, e = validateErrToRag ve := by
  simp only [generateSQL] at h
  repeat' split at h
  all_goals first
    | (exact Or.inr (genBranch_error _ _ _ h))
    | simp_all

theorem generateSQL_events (o : Oracles) (uid q : List Char) :
    ∀ ev ∈ (generateSQL o uid q).2, ∀ sql, ev ≠ Event.execCall sql := by
  simp only [generateSQL]
  repeat' split
  all_goals first
    | (apply genBranch_no_exec; intro e he s; simp_all)
    | (intro ev hev sql; simp_all)

/-! ## C10: the intent result domain -/

/-- C10: every non-error result of `classifyIntent` is exactly `chat` or
exactly `query_data`, and consequently `PrepareRAGResponse` never returns
the unknown-intent error. -/
theorem C10_intent_domain :
    (∀ o q r, (classifyIntent o q).1 = .ok r → r = intentChat ∨ r = intentQueryData)
  ∧ (∀ o uid q, (PrepareRAGResponse o uid q).1 ≠ .error .unknownIntent) := by
  constructor
  · exact classifyIntent_ok_cases
  · intro o uid q h
    simp only [PrepareRAGResponse] at h
    split at h
    · simp_all
    · rename_i intent heq
      split at h
      · simp_all
      · split at h
        · rename_i hne hne2
          rcases classifyIntent_ok_cases o q intent heq with hc | hc
          · exact hne hc
          · exact hne2 hc
        · split at h
          · rename_i e heq2
            rcases generateSQL_error_shape o uid q e heq2 with he | ⟨ve, he⟩
            · simp_all
            · subst he
              simp only [Except.error.injEq] at h
              exact validateErrToRag_ne_unknown ve h
          · split at h
            · simp_all
            · split at h
              · split at h <;> simp_all
              · simp_all

/-- Witness for C10: the `chat`-answering oracle's result is in the domain
(first conjunct applied at a concrete run). -/
theorem C10_intent_domain_witness :
    intentChat = intentChat ∨ intentChat = intentQueryData :=
  C10_intent_domain.1 chatLLMOracles "hello".data intentChat (by decide)

/-! ## C7: the assignee clause and the my-tasks template -/

set_option maxRecDepth 20000 in
/-- C7: for a catalog with the single person property `assignee`, the
clause builder produces the equality predicate on
`json_extract(fields, '$.properties.assignee')`; and for the question
`查询我的任务` with identity `u1` the template strategy of `generateSQL`
returns (under every LLM and executor oracle) exactly the SELECT `c7sql`,
whose text contains the constraints `type='card' AND delete_at=0` and
`json_extract(fields, '$.properties.assignee') = 'u1'`. -/
theorem C7_assignee_clause :
    buildAssigneeClause "u1".data (some assigneeCat)
      = " AND (json_extract(fields, '$.properties.assignee') = 'u1')".data
  ∧ (∀ llm exec,
      (generateSQL ⟨llm, exec, .ok assigneeCat⟩ "u1".data "查询我的任务".data).1
        = .ok c7sql)
  ∧ containsL c7sql "type='card' AND delete_at=0".data = true
  ∧ containsL c7sql "json_extract(fields, '$.properties.assignee') = 'u1'".data
      = true := by
  refine ⟨by decide, ?_, by decide, by decide⟩
  intro llm exec
  rfl

/-! ## C4: the fallback strategy -/

/-- C4: in a run whose intent is `query_data`, whose generated statement is
`sql` and whose primary execution returns a serialization trimming to
`[]`, the fixed fallback statement is passed to the executor; when the
fallback succeeds its result is substituted into the final prompt, and
when it fails the run still succeeds with the prompt built from the empty
primary result. -/
theorem C4_fallback (o : Oracles) (uid q sql ctx : List Char)
    (hint : (classifyIntent o q).1 = .ok intentQueryData)
    (hgen : (generateSQL o uid q).1 = .ok sql)
    (hexec : o.exec sql = .ok ctx)
    (htrim : trimL ctx = "[]".data) :
    Event.execCall fallbackSQL ∈ (PrepareRAGResponse o uid q).2
    ∧ (∀ fb, o.exec fallbackSQL = .ok fb →
        (PrepareRAGResponse o uid q).1 = .ok (buildFinalPrompt q fb))
    ∧ (∀ e, o.exec fallbackSQL = .error e →
        (PrepareRAGResponse o uid q).1 = .ok (buildFinalPrompt q ctx)) := by
  have hred : PrepareRAGResponse o uid q
      = (match o.exec fallbackSQL with
         | .ok fbJSON => (.ok (buildFinalPrompt q fbJSON),
             (classifyIntent o q).2 ++ (generateSQL o uid q).2
               ++ [.execCall sql, .execCall fallbackSQL])
         | .error _ => (.ok (buildFinalPrompt q ctx),
             (classifyIntent o q).2 ++ (generateSQL o uid q).2
               ++ [.execCall sql, .execCall fallbackSQL])) := by
    simp only [PrepareRAGResponse, hint, hgen, hexec]
    rw [if_neg (by decide), if_neg (by simp), if_pos htrim]
  refine ⟨?_, ?_, ?_⟩
  · rw [hred]
    cases o.exec fallbackSQL <;> simp
  · intro fb hfb
    rw [hred, hfb]
  · intro e hfb
    rw [hred, hfb]

/-- Witness for C4: the concrete empty-primary run whose fallback succeeds
does execute the fallback statement. -/
theorem C4_fallback_witness :
    Event.execCall fallbackSQL
      ∈ (PrepareRAGResponse fbOracles "u1".data "我的任务".data).2 :=
  (C4_fallback fbOracles "u1".data "我的任务".data
    (templateMyTasksSQL "u1".data (some emptyCat)) "[]".data
    (by decide) (by decide) (by decide) (by decide)).1

/-! ## C2: what reaches the executor -/

set_option maxRecDepth 20000 in
theorem fallbackSQL_validated : validateReadOnlySQL fallbackSQL = none := by
  decide

set_option maxRecDepth 20000 in
/-- C2 counterexample: in this concrete run (keyword-matched question, a
primary query returning no rows, a fallback query that succeeds) the
fallback statement reaches the executor although no earlier validator
call was made on it — the claim that every executed statement was
previously passed through `validateReadOnlySQL` fails on the fallback
path. -/
theorem C2_counterexample :
    execsValidatedBefore []
      (PrepareRAGResponse fbOracles "u1".data "我的任务".data).2 = false := by
  decide

/-- C2 (amended): every statement passed to the executor satisfies
`validateReadOnlySQL` (the primary statement was validated inside
`generateSQL`; the fixed fallback statement is not run through the
validator at runtime but satisfies it). -/
theorem C2_executor_only_validated :
    ∀ o uid q sql, Event.execCall sql ∈ (PrepareRAGResponse o uid q).2 →
      validateReadOnlySQL sql = none := by
  intro o uid q sql hmem
  simp only [PrepareRAGResponse] at hmem
  split at hmem
  · obtain ⟨p, hp⟩ := classifyIntent_events o q _ hmem
    exact absurd hp (by simp)
  · split at hmem
    · obtain ⟨p, hp⟩ := classifyIntent_events o q _ hmem
      exact absurd hp (by simp)
    · split at hmem
      · obtain ⟨p, hp⟩ := classifyIntent_events o q _ hmem
        exact absurd hp (by simp)
      · split at hmem
        · rw [List.mem_append] at hmem
          rcases hmem with h | h
          · obtain ⟨p, hp⟩ := classifyIntent_events o q _ h
            exact absurd hp (by simp)
          · exact absurd rfl (generateSQL_events o uid q _ h sql)
        · rename_i sqlText heq
          split at hmem
          · rw [List.mem_append, List.mem_append] at hmem
            rcases hmem with (h | h) | h
            · obtain ⟨p, hp⟩ := classifyIntent_events o q _ h
              exact absurd hp (by simp)
            · exact absurd rfl (generateSQL_events o uid q _ h sql)
            · simp only [List.mem_singleton, Event.execCall.injEq] at h
              rw [h]
              exact generateSQL_ok_validated o uid q sqlText heq
          · split at hmem
            · split at hmem
              all_goals
                rw [List.mem_append, List.mem_append] at hmem
              all_goals
                rcases hmem with (h | h) | h
              · obtain ⟨p, hp⟩ := classifyIntent_events o q _ h
                exact absurd hp (by simp)
              · exact absurd rfl (generateSQL_events o uid q _ h sql)
              · simp only [List.mem_cons, List.mem_singleton, Event.execCall.injEq,
                  List.not_mem_nil, or_false] at h
                rcases h with h | h
                · rw [h]
                  exact generateSQL_ok_validated o uid q sqlText heq
                · rw [h]
                  exact fallbackSQL_validated
              · obtain ⟨p, hp⟩ := classifyIntent_events o q _ h
                exact absurd hp (by simp)
              · exact absurd rfl (generateSQL_events o uid q _ h sql)
              · simp only [List.mem_cons, List.mem_singleton, Event.execCall.injEq,
                  List.not_mem_nil, or_false] at h
                rcases h with h | h
                · rw [h]
                  exact generateSQL_ok_validated o uid q sqlText heq
                · rw [h]
                  exact fallbackSQL_validated
            · rw [List.mem_append, List.mem_append] at hmem
              rcases hmem with (h | h) | h
              · obtain ⟨p, hp⟩ := classifyIntent_events o q _ h
                exact absurd hp (by simp)
              · exact absurd rfl (generateSQL_events o uid q _ h sql)
              · simp only [List.mem_singleton, Event.execCall.injEq] at h
                rw [h]
                exact generateSQL_ok_validated o uid q sqlText heq

/-- Witness for C2's amended theorem: the primary statement of the
counterexample run reaches the executor and satisfies the validator. -/
theorem C2_executor_only_validated_witness :
    validateReadOnlySQL (templateMyTasksSQL "u1".data (some emptyCat)) = none :=
  C2_executor_only_validated fbOracles "u1".data "我的任务".data
    (templateMyTasksSQL "u1".data (some emptyCat)) (by decide)

/-! ## C3: the streaming relay -/

theorem processLines_done_false (parse : List Char → Option OpenAIResp) :
    ∀ lines c, c ∈ processLines parse lines → c.done = false := by
  intro lines
  induction lines with
  | nil =>
    intro c hc
    simp [processLines] at hc
  | cons line rest ih =>
    intro c hc
    simp only [processLines] at hc
    split at hc
    · split at hc
      · simp at hc
      · split at hc
        · exact ih c hc
        · split at hc
          · exact ih c hc
          · rw [List.mem_append] at hc
            rcases hc with h | h
            · split at h
              · simp only [List.mem_singleton] at h
                rw [h]
              · simp at h
            · split at h
              · simp at h
              · exact ih c h
    · exact ih c hc

theorem processLines_allDelta_step (c : List Char) (rest : List (List Char))
    (hdone : ¬(c = "[DONE]".data)) :
    processLines allDeltaParse (("data: ".data ++ c) :: rest)
      = (if c = [] then [] else [⟨c, false⟩]) ++ processLines allDeltaParse rest := by
  have hpre : hasPrefixL ("data: ".data ++ c) "data: ".data = true := by
    rw [hasPrefixL_iff]
    exact ⟨c, rfl⟩
  have hdrop : ("data: ".data ++ c).drop 6 = c := by
    have h6 : ("data: ".data).length = 6 := rfl
    rw [← h6, List.drop_left]
  simp only [processLines, hpre, if_true, hdrop, if_neg hdone, allDeltaParse]
  by_cases hc : c = []
  · simp [hc]
  · simp [hc]

/-- C3: (a) for every upstream decoder, line sequence and read-error flag,
the outbound sequence of `handleAIChatStream` ends with the terminal
`done:true` chunk and contains exactly one `done:true` chunk (the
exactly-one-terminal-chunk guarantee, on success or failure); (b) for an
all-delta upstream the `done:false` chunks carry the non-empty delta
contents in arrival order, one chunk per non-empty delta; (c) in the
concrete scenario of three content deltas, then a finish-reason event,
then a further line, with the upstream then erroring, the outbound
sequence is exactly the three contents in order followed by the terminal
chunk. -/
theorem C3_streaming_relay :
    (∀ parse lines readErr,
      (handleAIChatStreamChunks parse lines readErr).getLast? = some ⟨[], true⟩
      ∧ List.countP (fun c => c.done)
          (handleAIChatStreamChunks parse lines readErr) = 1)
  ∧ (∀ cs : List (List Char), (∀ c ∈ cs, c ≠ "[DONE]".data) →
      processLines allDeltaParse (cs.map (fun c => "data: ".data ++ c))
        = (cs.filter (fun c => c ≠ [])).map (fun c => AIStreamChunk.mk c false))
  ∧ handleAIChatStreamChunks scenarioParse scenarioLines true
      = [⟨"你".data, false⟩, ⟨"好".data, false⟩, ⟨"!".data, false⟩, ⟨[], true⟩] := by
  refine ⟨?_, ?_, by decide⟩
  · intro parse lines readErr
    constructor
    · simp [handleAIChatStreamChunks]
    · rw [handleAIChatStreamChunks, List.countP_append]
      have h0 : List.countP (fun c => c.done) (processLines parse lines) = 0 := by
        rw [List.countP_eq_zero]
        intro a ha
        simp [processLines_done_false parse lines a ha]
      rw [h0]
      rfl
  · intro cs hcs
    induction cs with
    | nil => rfl
    | cons c cs' ih =>
      have hpre : hasPrefixL ("data: ".data ++ c) "data: ".data = true := by
        rw [hasPrefixL_iff]
        exact ⟨c, rfl⟩
      have hdrop : ("data: ".data ++ c).drop 6 = c := by
        have : ("data: ".data).length = 6 := rfl
        rw [← this, List.drop_left]
      have hdone : ¬(c = "[DONE]".data) := hcs c (by simp)
      have ih' := ih (fun d hd => hcs d (by simp [hd]))
      rw [List.map_cons, processLines_allDelta_step c _ hdone, ih', List.filter_cons]
      by_cases hc : c = []
      · simp [hc]
      · simp [hc]

/-! ## C9: gluing lemmas for clean fragments -/

theorem cwAux_congr_prev (p p' : Option Char) (h : notWordOpt p = notWordOpt p')
    (s kw : List Char) : cwAux p s kw = cwAux p' s kw := by
  cases s with
  | nil => simp only [cwAux, h]
  | cons c cs => simp only [cwAux, h]

theorem beq_false_of_ne {c x : Char} (h : c ≠ x) : (c == x) = false := by
  simpa using h

theorem prefixWord_through (kw : List Char)
    (hword : ∀ ch ∈ kw, isWordChar ch = true) (c : Char)
    (hc : isWordChar c = false) :
    ∀ A B, (hasPrefixL (A ++ c :: B) kw
        && notWordOpt (((A ++ c :: B).drop kw.length).head?))
      = (hasPrefixL A kw && notWordOpt ((A.drop kw.length).head?)) := by
  induction kw with
  | nil =>
    intro A B
    cases A with
    | nil => simp [hasPrefixL, notWordOpt, hc]
    | cons a A' => simp [hasPrefixL, notWordOpt]
  | cons k kw' ih =>
    intro A B
    cases A with
    | nil =>
      have hck : (c == k) = false :=
        beq_false_of_ne (fun he => by
          rw [he] at hc
          rw [hword k (by simp)] at hc
          exact Bool.true_eq_false ▸ hc)
      simp [hasPrefixL, hck]
    | cons a A' =>
      have := ih (fun ch hch => hword ch (by simp [hch])) A' B
      simp only [List.cons_append, hasPrefixL, List.length_cons, List.drop_succ_cons,
        Bool.and_assoc] at this ⊢
      cases hak : (a == k) with
      | false => simp
      | true => simpa using this

theorem cwAux_glue (kw : List Char) (hne : kw ≠ [])
    (hword : ∀ ch ∈ kw, isWordChar ch = true) (c : Char)
    (hc : isWordChar c = false) :
    ∀ A B prev, cwAux prev (A ++ c :: B) kw
      = (cwAux prev A kw || cwAux none B kw) := by
  intro A
  induction A with
  | nil =>
    intro B prev
    have hpre : hasPrefixL (c :: B) kw = false := by
      cases kw with
      | nil => exact absurd rfl hne
      | cons k kw' =>
        have hck : (c == k) = false :=
          beq_false_of_ne (fun he => by
            rw [he] at hc
            rw [hword k (by simp)] at hc
            exact Bool.true_eq_false ▸ hc)
        simp [hasPrefixL, hck]
    have hpre0 : hasPrefixL [] kw = false := by
      cases kw with
      | nil => exact absurd rfl hne
      | cons k kw' => rfl
    have hcw : cwAux (some c) B kw = cwAux none B kw :=
      cwAux_congr_prev (some c) none (by simp [notWordOpt, hc]) B kw
    simp only [List.nil_append, cwAux, hpre, hpre0, hcw, Bool.and_false,
      Bool.false_and, Bool.and_true, Bool.false_or]
  | cons a A' ih =>
    intro B prev
    have hslot := prefixWord_through kw hword c hc (a :: A') B
    simp only [List.cons_append] at hslot
    simp only [cwAux, List.cons_append, List.append_eq, Bool.and_assoc]
    rw [hslot, ih B (some a)]
    simp [Bool.or_assoc]

theorem containsWordL_glue (kw : List Char) (hne : kw ≠ [])
    (hword : ∀ ch ∈ kw, isWordChar ch = true) (c : Char)
    (hc : isWordChar c = false) (A B : List Char) :
    containsWordL (A ++ c :: B) kw = (containsWordL A kw || containsWordL B kw) :=
  cwAux_glue kw hne hword c hc A B none

theorem containsL_single_glue (x c : Char) (hx : c ≠ x) :
    ∀ A B, containsL (A ++ c :: B) [x] = (containsL A [x] || containsL B [x]) := by
  intro A
  induction A with
  | nil =>
    intro B
    simp [containsL, hasPrefixL, beq_false_of_ne hx]
  | cons a A' ih =>
    intro B
    simp only [List.cons_append, List.append_eq, containsL, hasPrefixL, Bool.and_true]
    rw [ih B]
    cases a == x <;> simp [Bool.or_assoc]

theorem hasPrefix_single_through (y c : Char) (hy : c ≠ y) (A' B : List Char) :
    hasPrefixL (A' ++ c :: B) [y] = hasPrefixL A' [y] := by
  cases A' with
  | nil => simp [hasPrefixL, beq_false_of_ne hy]
  | cons a rest => simp [hasPrefixL]

theorem containsL_pair_glue (x y c : Char) (hx : c ≠ x) (hy : c ≠ y) :
    ∀ A B, containsL (A ++ c :: B) [x, y]
      = (containsL A [x, y] || containsL B [x, y]) := by
  intro A
  induction A with
  | nil =>
    intro B
    simp [containsL, hasPrefixL, beq_false_of_ne hx]
  | cons a A' ih =>
    intro B
    simp only [List.cons_append, List.append_eq, containsL, hasPrefixL]
    rw [hasPrefix_single_through y c hy A' B, ih B]
    cases a == x <;> simp [Bool.or_assoc]

theorem safeChar_components (c : Char) (hc : safeChar c = true) :
    isWordChar c = false ∧ c ≠ ';' ∧ c ≠ '-' ∧ c ≠ '/' ∧ c ≠ '*' := by
  simp only [safeChar, Bool.and_eq_true, Bool.not_eq_true'] at hc
  obtain ⟨⟨⟨⟨h1, h2⟩, h3⟩, h4⟩, h5⟩ := hc
  refine ⟨h1, ?_, ?_, ?_, ?_⟩
  · intro he
    subst he
    simp at h2
  · intro he
    subst he
    simp at h3
  · intro he
    subst he
    simp at h4
  · intro he
    subst he
    simp at h5

theorem cleanFragment_append (A B : List Char) (c : Char) (hc : safeChar c = true)
    (hA : cleanFragment A = true) (hB : cleanFragment B = true) :
    cleanFragment (A ++ c :: B) = true := by
  obtain ⟨hw, h1, h2, h3, h4⟩ := safeChar_components c hc
  simp only [cleanFragment, forbiddenKeywords, forbiddenCharSeqs, List.all_cons,
    List.all_nil, Bool.and_true, Bool.and_eq_true, Bool.not_eq_true',
    show ";".data = [';'] from rfl, show "--".data = ['-', '-'] from rfl,
    show "/*".data = ['/', '*'] from rfl] at hA hB ⊢
  obtain ⟨⟨a1, a2, a3, a4, a5, a6⟩, s1, s2, s3⟩ := hA
  obtain ⟨⟨b1, b2, b3, b4, b5, b6⟩, t1, t2, t3⟩ := hB
  refine ⟨⟨?_, ?_, ?_, ?_, ?_, ?_⟩, ?_, ?_, ?_⟩
  · rw [containsWordL_glue _ (by decide) (by decide) c hw]
    simp [a1, b1]
  · rw [containsWordL_glue _ (by decide) (by decide) c hw]
    simp [a2, b2]
  · rw [containsWordL_glue _ (by decide) (by decide) c hw]
    simp [a3, b3]
  · rw [containsWordL_glue _ (by decide) (by decide) c hw]
    simp [a4, b4]
  · rw [containsWordL_glue _ (by decide) (by decide) c hw]
    simp [a5, b5]
  · rw [containsWordL_glue _ (by decide) (by decide) c hw]
    simp [a6, b6]
  · rw [containsL_single_glue ';' c h1]
    simp [s1, t1]
  · rw [containsL_pair_glue '-' '-' c h2 h2]
    simp [s2, t2]
  · rw [containsL_pair_glue '/' '*' c h3 h4]
    simp [s3, t3]

/-- `cleanFragment` gluing at the pre-uppercase level: junction characters of
the templates are punctuation, fixed by `Char.toUpper`. -/
theorem cleanUp_glue (A B : List Char) (c : Char)
    (hc : safeChar (Char.toUpper c) = true)
    (hA : cleanFragment (toUpperL A) = true)
    (hB : cleanFragment (toUpperL B) = true) :
    cleanFragment (toUpperL (A ++ c :: B)) = true := by
  have he : toUpperL (A ++ c :: B) = toUpperL A ++ Char.toUpper c :: toUpperL B := by
    simp [toUpperL]
  rw [he]
  exact cleanFragment_append _ _ _ hc hA hB

/-- Prepending characters that are all safe junction characters preserves
cleanliness. -/
theorem cleanUp_safePre (pre : List Char) (B : List Char)
    (hpre : ∀ c ∈ pre, safeChar (Char.toUpper c) = true)
    (hB : cleanFragment (toUpperL B) = true) :
    cleanFragment (toUpperL (pre ++ B)) = true := by
  induction pre with
  | nil => simpa using hB
  | cons c pre' ih =>
    have h := cleanUp_glue [] (pre' ++ B) c (hpre c (by simp)) (by decide)
      (ih (fun d hd => hpre d (by simp [hd])))
    simpa using h

theorem joinOR_clean (parts : List (List Char))
    (h : ∀ p ∈ parts, cleanFragment (toUpperL p) = true) :
    cleanFragment (toUpperL (joinL " OR ".data parts)) = true := by
  induction parts with
  | nil => decide
  | cons p rest ih =>
    cases rest with
    | nil => simpa [joinL] using h p (by simp)
    | cons p2 rest2 =>
      have hJ := ih (fun x hx => h x (by simp [hx]))
      have inner : cleanFragment (toUpperL ("OR".data
          ++ (' ' :: joinL " OR ".data (p2 :: rest2)))) = true :=
        cleanUp_glue "OR".data _ ' ' (by decide) (by decide) hJ
      have outer := cleanUp_glue p _ ' ' (by decide) (h p (by simp)) inner
      have eshape : joinL " OR ".data (p :: p2 :: rest2)
          = p ++ ' ' :: ("OR".data ++ (' ' :: joinL " OR ".data (p2 :: rest2))) := by
        simp [joinL]
      rw [eshape]
      exact outer

theorem joinComma_clean (parts : List (List Char))
    (h : ∀ p ∈ parts, cleanFragment (toUpperL p) = true) :
    cleanFragment (toUpperL (joinL ",".data parts)) = true := by
  induction parts with
  | nil => decide
  | cons p rest ih =>
    cases rest with
    | nil => simpa [joinL] using h p (by simp)
    | cons p2 rest2 =>
      have hJ := ih (fun x hx => h x (by simp [hx]))
      have outer := cleanUp_glue p _ ',' (by decide) (h p (by simp)) hJ
      have eshape : joinL ",".data (p :: p2 :: rest2)
          = p ++ ',' :: joinL ",".data (p2 :: rest2) := by
        simp [joinL]
      rw [eshape]
      exact outer

theorem quoted_clean (oid : List Char)
    (hoid : cleanFragment (toUpperL oid) = true) :
    cleanFragment (toUpperL ("'".data ++ oid ++ "'".data)) = true := by
  have h1 : cleanFragment (toUpperL (oid ++ '\'' :: [])) = true :=
    cleanUp_glue oid [] '\'' (by decide) hoid (by decide)
  have h2 := cleanUp_glue [] (oid ++ ['\'']) '\'' (by decide) (by decide) h1
  have eshape : "'".data ++ oid ++ "'".data = [] ++ '\'' :: (oid ++ ['\'']) := by
    simp
  rw [eshape]
  exact h2

theorem lookupOpt_some_mem (opts : List (List Char × List Char))
    (k v : List Char) (h : lookupOpt opts k = some v) : (k, v) ∈ opts := by
  induction opts with
  | nil => simp [lookupOpt] at h
  | cons kv rest ih =>
    rw [lookupOpt] at h
    split at h
    · rename_i heq
      simp only [Option.some.injEq] at h
      subst h
      subst heq
      simp
    · exact List.mem_cons_of_mem _ (ih h)

theorem doneIDsOf_clean (opts : List (List Char × List Char))
    (hopts : ∀ kv ∈ opts, cleanFragment (toUpperL kv.2) = true) :
    ∀ x ∈ doneIDsOf opts, cleanFragment (toUpperL x) = true := by
  intro x hx
  rw [doneIDsOf, List.mem_filterMap] at hx
  obtain ⟨v, _, hv⟩ := hx
  rw [Option.map_eq_some'] at hv
  obtain ⟨oid, hl, rfl⟩ := hv
  exact quoted_clean oid (hopts _ (lookupOpt_some_mem opts _ oid hl))

theorem progIDsOf_clean (opts : List (List Char × List Char))
    (hopts : ∀ kv ∈ opts, cleanFragment (toUpperL kv.2) = true) :
    ∀ x ∈ progIDsOf opts, cleanFragment (toUpperL x) = true := by
  intro x hx
  rw [progIDsOf, List.mem_filterMap] at hx
  obtain ⟨v, _, hv⟩ := hx
  rw [Option.map_eq_some'] at hv
  obtain ⟨oid, hl, rfl⟩ := hv
  exact quoted_clean oid (hopts _ (lookupOpt_some_mem opts _ oid hl))

theorem personPart_clean (pid uid : List Char)
    (hpid : cleanFragment (toUpperL pid) = true)
    (huid : cleanFragment (toUpperL uid) = true) :
    cleanFragment (toUpperL ("json_extract(fields, '$.properties.".data ++ pid
      ++ "') = '".data ++ uid ++ "'".data)) = true := by
  have c1 : cleanFragment (toUpperL (uid ++ ['\''])) = true := by
    simpa using cleanUp_glue uid [] '\'' (by decide) huid (by decide)
  have c2 := cleanUp_glue ") = ".data (uid ++ ['\'']) '\'' (by decide) (by decide) c1
  have c3 := cleanUp_glue pid _ '\'' (by decide) hpid c2
  have c4 := cleanUp_glue "json_extract(fields, '$.properties".data _ '.'
    (by decide) (by decide) c3
  have eshape : "json_extract(fields, '$.properties.".data ++ pid
      ++ "') = '".data ++ uid ++ "'".data
      = "json_extract(fields, '$.properties".data
        ++ '.' :: (pid ++ '\'' :: (") = ".data ++ '\'' :: (uid ++ ['\'']))) := by
    simp
  rw [eshape]
  exact c4

theorem multiPart_clean (pid uid : List Char)
    (hpid : cleanFragment (toUpperL pid) = true)
    (huid : cleanFragment (toUpperL uid) = true) :
    cleanFragment (toUpperL
      ("EXISTS (SELECT 1 FROM json_each(json_extract(fields, '$.properties.".data
        ++ pid ++ "')) WHERE value = '".data ++ uid ++ "')".data)) = true := by
  have c1 : cleanFragment (toUpperL (uid ++ '\'' :: [')'])) = true :=
    cleanUp_glue uid [')'] '\'' (by decide) huid (by decide)
  have c2 := cleanUp_glue ")) WHERE value = ".data (uid ++ '\'' :: [')']) '\''
    (by decide) (by decide) c1
  have c3 := cleanUp_glue pid _ '\'' (by decide) hpid c2
  have c4 := cleanUp_glue
    "EXISTS (SELECT 1 FROM json_each(json_extract(fields, '$.properties".data
    _ '.' (by decide) (by decide) c3
  have eshape :
      "EXISTS (SELECT 1 FROM json_each(json_extract(fields, '$.properties.".data
        ++ pid ++ "')) WHERE value = '".data ++ uid ++ "')".data
      = "EXISTS (SELECT 1 FROM json_each(json_extract(fields, '$.properties".data
        ++ '.' :: (pid ++ '\'' :: (")) WHERE value = ".data
          ++ '\'' :: (uid ++ '\'' :: [')']))) := by
    simp
  rw [eshape]
  exact c4

theorem statusNotInPart_clean (sid : List Char) (ids : List (List Char))
    (hsid : cleanFragment (toUpperL sid) = true)
    (hids : ∀ x ∈ ids, cleanFragment (toUpperL x) = true) :
    cleanFragment (toUpperL ("(json_extract(fields, '$.properties.".data ++ sid
      ++ "') NOT IN (".data ++ joinL ",".data ids
      ++ ") OR json_extract(fields, '$.properties.".data ++ sid
      ++ "') IS NULL)".data)) = true := by
  have hJ := joinComma_clean ids hids
  have d1 : cleanFragment (toUpperL (") IS NULL)".data : List Char)) = true := by
    decide
  have d2 := cleanUp_glue sid ") IS NULL)".data '\'' (by decide) hsid d1
  have d3 := cleanUp_glue " OR json_extract(fields, '$.properties".data _ '.'
    (by decide) (by decide) d2
  have d4 := cleanUp_glue (joinL ",".data ids) _ ')' (by decide) hJ d3
  have d5 := cleanUp_glue ") NOT IN ".data _ '(' (by decide) (by decide) d4
  have d6 := cleanUp_glue sid _ '\'' (by decide) hsid d5
  have d7 := cleanUp_glue "(json_extract(fields, '$.properties".data _ '.'
    (by decide) (by decide) d6
  have eshape : "(json_extract(fields, '$.properties.".data ++ sid
      ++ "') NOT IN (".data ++ joinL ",".data ids
      ++ ") OR json_extract(fields, '$.properties.".data ++ sid
      ++ "') IS NULL)".data
    = "(json_extract(fields, '$.properties".data ++ '.' :: (sid
        ++ '\'' :: (") NOT IN ".data ++ '(' :: (joinL ",".data ids
          ++ ')' :: (" OR json_extract(fields, '$.properties".data
            ++ '.' :: (sid ++ '\'' :: ") IS NULL)".data))))) := by
    simp
  rw [eshape]
  exact d7

theorem statusNullPart_clean (sid : List Char)
    (hsid : cleanFragment (toUpperL sid) = true) :
    cleanFragment (toUpperL ("(json_extract(fields, '$.properties.".data ++ sid
      ++ "') IS NULL)".data)) = true := by
  have e1 : cleanFragment (toUpperL (") IS NULL)".data : List Char)) = true := by
    decide
  have e2 := cleanUp_glue sid ") IS NULL)".data '\'' (by decide) hsid e1
  have e3 := cleanUp_glue "(json_extract(fields, '$.properties".data _ '.'
    (by decide) (by decide) e2
  have eshape : "(json_extract(fields, '$.properties.".data ++ sid
      ++ "') IS NULL)".data
    = "(json_extract(fields, '$.properties".data
        ++ '.' :: (sid ++ '\'' :: ") IS NULL)".data) := by
    simp
  rw [eshape]
  exact e3

theorem statusInPart_clean (sid : List Char) (ids : List (List Char))
    (hsid : cleanFragment (toUpperL sid) = true)
    (hids : ∀ x ∈ ids, cleanFragment (toUpperL x) = true) :
    cleanFragment (toUpperL ("json_extract(fields, '$.properties.".data ++ sid
      ++ "') IN (".data ++ joinL ",".data ids ++ ")".data)) = true := by
  have hJ := joinComma_clean ids hids
  have f1 : cleanFragment (toUpperL (joinL ",".data ids ++ [')'])) = true := by
    simpa using cleanUp_glue (joinL ",".data ids) [] ')' (by decide) hJ (by decide)
  have f2 := cleanUp_glue ") IN ".data _ '(' (by decide) (by decide) f1
  have f3 := cleanUp_glue sid _ '\'' (by decide) hsid f2
  have f4 := cleanUp_glue "json_extract(fields, '$.properties".data _ '.'
    (by decide) (by decide) f3
  have eshape : "json_extract(fields, '$.properties.".data ++ sid
      ++ "') IN (".data ++ joinL ",".data ids ++ ")".data
    = "json_extract(fields, '$.properties".data ++ '.' :: (sid
        ++ '\'' :: (") IN ".data ++ '(' :: (joinL ",".data ids ++ [')']))) := by
    simp
  rw [eshape]
  exact f4

theorem datePart_clean (did : List Char)
    (hdid : cleanFragment (toUpperL did) = true) :
    cleanFragment (toUpperL
      ("(json_extract(json_extract(fields, '$.properties.".data ++ did
        ++ "'), '$.from') IS NOT NULL AND json_extract(json_extract(fields, '$.properties.".data
        ++ did ++ "'), '$.from') < (strftime('%s','now')*1000))".data)) = true := by
  have g1 : cleanFragment (toUpperL
      (("), '$.from') < (strftime('%s','now')*1000))".data : List Char))) = true := by
    decide
  have g2 := cleanUp_glue did _ '\'' (by decide) hdid g1
  have g3 := cleanUp_glue
    "), '$.from') IS NOT NULL AND json_extract(json_extract(fields, '$.properties".data
    _ '.' (by decide) (by decide) g2
  have g4 := cleanUp_glue did _ '\'' (by decide) hdid g3
  have g5 := cleanUp_glue "(json_extract(json_extract(fields, '$.properties".data
    _ '.' (by decide) (by decide) g4
  have eshape : "(json_extract(json_extract(fields, '$.properties.".data ++ did
      ++ "'), '$.from') IS NOT NULL AND json_extract(json_extract(fields, '$.properties.".data
      ++ did ++ "'), '$.from') < (strftime('%s','now')*1000))".data
    = "(json_extract(json_extract(fields, '$.properties".data ++ '.' :: (did
        ++ '\'' :: ("), '$.from') IS NOT NULL AND json_extract(json_extract(fields, '$.properties".data
          ++ '.' :: (did
            ++ '\'' :: "), '$.from') < (strftime('%s','now')*1000))".data))) := by
    simp
  rw [eshape]
  exact g5

theorem andParen_cleanClause (J : List Char)
    (hJ : cleanFragment (toUpperL J) = true) :
    cleanClause (" AND (".data ++ J ++ ")".data) := by
  right
  refine ⟨"AND (".data ++ (J ++ [')']), by simp, ?_⟩
  have c1 : cleanFragment (toUpperL (J ++ [')'])) = true := by
    simpa using cleanUp_glue J [] ')' (by decide) hJ (by decide)
  have c2 := cleanUp_glue "AND ".data (J ++ [')']) '(' (by decide) (by decide) c1
  have eshape : "AND (".data ++ (J ++ [')'])
      = "AND ".data ++ '(' :: (J ++ [')']) := by
    simp
  rw [eshape]
  exact c2

theorem catalogClean_components (c : propCatalog) (h : catalogClean c = true) :
    (∀ pid ∈ c.PersonPropIDs, cleanFragment (toUpperL pid) = true)
    ∧ (∀ pid ∈ c.MultiPersonPropIDs, cleanFragment (toUpperL pid) = true)
    ∧ (∀ p ∈ c.StatusPropOptions, cleanFragment (toUpperL p.1) = true
        ∧ ∀ kv ∈ p.2, cleanFragment (toUpperL kv.2) = true)
    ∧ (∀ did ∈ c.DatePropIDs, cleanFragment (toUpperL did) = true) := by
  simp only [catalogClean, Bool.and_eq_true, List.all_eq_true] at h
  obtain ⟨⟨⟨h1, h2⟩, h3⟩, h4⟩ := h
  refine ⟨h1, h2, ?_, h4⟩
  intro p hp
  exact h3 p hp

theorem cleanClause_append (A B : List Char) (hA : cleanClause A)
    (hB : cleanClause B) : cleanClause (A ++ B) := by
  rcases hA with rfl | ⟨ra, rfl, hra⟩
  · simpa using hB
  · rcases hB with rfl | ⟨rb, rfl, hrb⟩
    · exact Or.inr ⟨ra, by simp, hra⟩
    · refine Or.inr ⟨ra ++ ' ' :: rb, by simp, ?_⟩
      exact cleanUp_glue ra rb ' ' (by decide) hra hrb

theorem buildAssigneeClause_cleanClause (userID : List Char)
    (cat : Option propCatalog)
    (huid : cleanFragment (toUpperL userID) = true)
    (hcat : catalogCleanOpt cat = true) :
    cleanClause (buildAssigneeClause userID cat) := by
  cases cat with
  | none => exact Or.inl rfl
  | some c =>
    rw [catalogCleanOpt] at hcat
    obtain ⟨hP, hM, _, _⟩ := catalogClean_components c hcat
    simp only [buildAssigneeClause]
    split
    · exact Or.inl rfl
    · apply andParen_cleanClause
      apply joinOR_clean
      intro p hp
      rw [List.mem_append] at hp
      rcases hp with hp | hp <;> rw [List.mem_map] at hp <;>
        obtain ⟨pid, hpid, rfl⟩ := hp
      · exact personPart_clean pid userID (hP pid hpid) huid
      · exact multiPart_clean pid userID (hM pid hpid) huid

theorem buildStatusOpenClause_cleanClause (cat : Option propCatalog)
    (hcat : catalogCleanOpt cat = true) :
    cleanClause (buildStatusOpenClause cat) := by
  cases cat with
  | none => exact Or.inl rfl
  | some c =>
    rw [catalogCleanOpt] at hcat
    obtain ⟨_, _, hS, _⟩ := catalogClean_components c hcat
    simp only [buildStatusOpenClause]
    split
    · exact Or.inl rfl
    · apply andParen_cleanClause
      apply joinOR_clean
      intro x hx
      rw [List.mem_map] at hx
      obtain ⟨p, hp, rfl⟩ := hx
      obtain ⟨hsid, hopts⟩ := hS p hp
      cases hb : (doneIDsOf p.2).isEmpty with
      | true => simp only [hb, Bool.not_true]
                exact statusNullPart_clean p.1 hsid
      | false => simp only [hb, Bool.not_false]
                 exact statusNotInPart_clean p.1 (doneIDsOf p.2) hsid
                   (doneIDsOf_clean p.2 hopts)

theorem buildStatusDoneClause_cleanClause (cat : Option propCatalog)
    (hcat : catalogCleanOpt cat = true) :
    cleanClause (buildStatusDoneClause cat) := by
  cases cat with
  | none => exact Or.inl rfl
  | some c =>
    rw [catalogCleanOpt] at hcat
    obtain ⟨_, _, hS, _⟩ := catalogClean_components c hcat
    simp only [buildStatusDoneClause]
    split
    · exact Or.inl rfl
    · split
      · exact Or.inl rfl
      · apply andParen_cleanClause
        apply joinOR_clean
        intro x hx
        rw [List.mem_filterMap] at hx
        obtain ⟨p, hp, hfx⟩ := hx
        obtain ⟨hsid, hopts⟩ := hS p hp
        by_cases hb : (doneIDsOf p.2).isEmpty = true
        · rw [if_pos hb] at hfx
          cases hfx
        · rw [if_neg hb, Option.some.injEq] at hfx
          subst hfx
          exact statusInPart_clean p.1 (doneIDsOf p.2) hsid
            (doneIDsOf_clean p.2 hopts)

theorem buildStatusProgressClause_cleanClause (cat : Option propCatalog)
    (hcat : catalogCleanOpt cat = true) :
    cleanClause (buildStatusProgressClause cat) := by
  cases cat with
  | none => exact Or.inl rfl
  | some c =>
    rw [catalogCleanOpt] at hcat
    obtain ⟨_, _, hS, _⟩ := catalogClean_components c hcat
    simp only [buildStatusProgressClause]
    split
    · exact Or.inl rfl
    · split
      · exact Or.inl rfl
      · apply andParen_cleanClause
        apply joinOR_clean
        intro x hx
        rw [List.mem_filterMap] at hx
        obtain ⟨p, hp, hfx⟩ := hx
        obtain ⟨hsid, hopts⟩ := hS p hp
        by_cases hb : (progIDsOf p.2).isEmpty = true
        · rw [if_pos hb] at hfx
          cases hfx
        · rw [if_neg hb, Option.some.injEq] at hfx
          subst hfx
          exact statusInPart_clean p.1 (progIDsOf p.2) hsid
            (progIDsOf_clean p.2 hopts)

theorem buildOverdueClause_cleanClause (cat : Option propCatalog)
    (hcat : catalogCleanOpt cat = true) :
    cleanClause (buildOverdueClause cat) := by
  have hopen := buildStatusOpenClause_cleanClause cat hcat
  simp only [buildOverdueClause]
  apply cleanClause_append _ _ _ hopen
  cases cat with
  | none => exact Or.inl rfl
  | some c =>
    rw [catalogCleanOpt] at hcat
    obtain ⟨_, _, _, hD⟩ := catalogClean_components c hcat
    split
    · exact Or.inl rfl
    · apply andParen_cleanClause
      apply joinOR_clean
      intro x hx
      rw [List.mem_map] at hx
      obtain ⟨did, hdid, rfl⟩ := hx
      exact datePart_clean did (hD did hdid)

theorem dropWhile_eq_self_of_head (p : Char → Bool) (s : List Char)
    (h : ∀ c, s.head? = some c → p c = false) : s.dropWhile p = s := by
  cases s with
  | nil => rfl
  | cons c cs =>
    rw [List.dropWhile_cons, if_neg]
    simp [h c rfl]

theorem trimL_eq_self (s : List Char)
    (h1 : ∀ c, s.head? = some c → isSpaceGo c = false)
    (h2 : ∀ c, s.getLast? = some c → isSpaceGo c = false) : trimL s = s := by
  unfold trimL
  rw [dropWhile_eq_self_of_head _ _ h1]
  rw [dropWhile_eq_self_of_head _ _
    (fun c hc => h2 c (by rwa [List.head?_reverse] at hc))]
  exact List.reverse_reverse s

theorem hasPrefixL_append_left (A B p : List Char)
    (h : hasPrefixL A p = true) : hasPrefixL (A ++ B) p = true := by
  rw [hasPrefixL_iff] at h ⊢
  obtain ⟨t, rfl⟩ := h
  exact ⟨t ++ B, by simp⟩

theorem cleanFragment_components (s : List Char) (h : cleanFragment s = true) :
    (∀ kw ∈ forbiddenKeywords, containsWordL s kw = false)
    ∧ (∀ ch ∈ forbiddenCharSeqs, containsL s ch = false) := by
  simp only [cleanFragment, Bool.and_eq_true, List.all_eq_true,
    Bool.not_eq_true'] at h
  exact h

theorem validate_of_clean (s : List Char) (hne : s ≠ [])
    (hpre : hasPrefixL (toUpperL (trimL s)) "SELECT".data = true)
    (hclean : cleanFragment (toUpperL (trimL s)) = true) :
    validateReadOnlySQL s = none := by
  obtain ⟨hkw, hch⟩ := cleanFragment_components _ hclean
  have hk : forbiddenKeywords.find?
      (fun kw => containsWordL (toUpperL (trimL s)) kw) = none := by
    rw [List.find?_eq_none]
    intro x hx
    simp [hkw x hx]
  have hc : forbiddenCharSeqs.find?
      (fun ch => containsL (toUpperL (trimL s)) ch) = none := by
    rw [List.find?_eq_none]
    intro x hx
    simp [hch x hx]
  simp [validateReadOnlySQL, hne, hpre, hk, hc]

theorem template_validate (clause : List Char) (hcl : cleanClause clause) :
    validateReadOnlySQL (sqlSelectHead ++ clause ++ sqlOrderTail) = none := by
  have hne : sqlSelectHead ++ clause ++ sqlOrderTail ≠ [] := by
    intro h
    simp [sqlSelectHead] at h
  have hhead : (sqlSelectHead ++ clause ++ sqlOrderTail).head? = some 'S' := rfl
  have htrim : trimL (sqlSelectHead ++ clause ++ sqlOrderTail)
      = sqlSelectHead ++ clause ++ sqlOrderTail := by
    apply trimL_eq_self
    · intro c hc
      rw [hhead, Option.some.injEq] at hc
      subst hc
      decide
    · intro c hc
      rw [List.getLast?_append_of_ne_nil _ (by decide)] at hc
      have : sqlOrderTail.getLast? = some '0' := by decide
      rw [this, Option.some.injEq] at hc
      subst hc
      decide
  have hdist : toUpperL (sqlSelectHead ++ clause ++ sqlOrderTail)
      = toUpperL sqlSelectHead ++ toUpperL clause ++ toUpperL sqlOrderTail := by
    simp [toUpperL]
  have hpre : hasPrefixL (toUpperL (trimL
      (sqlSelectHead ++ clause ++ sqlOrderTail))) "SELECT".data = true := by
    rw [htrim, hdist]
    apply hasPrefixL_append_left
    apply hasPrefixL_append_left
    decide
  have hclean : cleanFragment (toUpperL
      (sqlSelectHead ++ clause ++ sqlOrderTail)) = true := by
    rcases hcl with rfl | ⟨rest, rfl, hrest⟩
    · have h := cleanUp_glue
        "SELECT id, title, board_id, fields, update_at FROM blocks WHERE type='card' AND delete_at=0".data
        sqlOrderTail ' ' (by decide) (by decide) (by decide)
      have eshape : sqlSelectHead ++ [] ++ sqlOrderTail
          = "SELECT id, title, board_id, fields, update_at FROM blocks WHERE type='card' AND delete_at=0".data
            ++ ' ' :: sqlOrderTail := by decide
      rw [eshape]
      exact h
    · have t1 : cleanFragment (toUpperL
          (rest ++ ' ' :: "ORDER BY update_at DESC LIMIT 50".data)) = true :=
        cleanUp_glue rest _ ' ' (by decide) hrest (by decide)
      have t1b : cleanFragment (toUpperL
          (' ' :: (rest ++ ' ' :: "ORDER BY update_at DESC LIMIT 50".data))) = true := by
        simpa using cleanUp_glue []
          (rest ++ ' ' :: "ORDER BY update_at DESC LIMIT 50".data) ' '
          (by decide) (by decide) t1
      have t2 := cleanUp_glue
        "SELECT id, title, board_id, fields, update_at FROM blocks WHERE type='card' AND delete_at=0".data
        _ ' ' (by decide) (by decide) t1b
      have eshape : sqlSelectHead ++ (' ' :: rest) ++ sqlOrderTail
          = "SELECT id, title, board_id, fields, update_at FROM blocks WHERE type='card' AND delete_at=0".data
            ++ ' ' :: (' ' :: (rest ++ ' ' :: "ORDER BY update_at DESC LIMIT 50".data)) := by
        simp [sqlSelectHead, sqlOrderTail]
      rw [eshape]
      exact t2
  refine validate_of_clean _ hne hpre ?_
  rw [htrim]
  exact hclean

set_option maxRecDepth 20000 in
/-- C9 counterexample: the clean catalog `c9cat` passes the claim's
precondition on property and status-option identifiers, yet with the
unconstrained user id `;` the my-tasks template fails validation (the
forbidden-character rule fires) and the my-tasks branch of `generateSQL`
returns the validation error — so the claim quantified over every userID
is false, and the validation-error return is reachable. -/
theorem C9_counterexample :
    catalogClean c9cat = true
    ∧ validateReadOnlySQL (templateMyTasksSQL ";".data (some c9cat))
        = some (.forbiddenChars ";".data)
    ∧ (generateSQL c9Oracles ";".data "我的任务".data).1
        = .error (.sqlChars ";".data) := by
  refine ⟨by decide, by decide, by decide⟩

/-- C9 (amended): for every user id and catalog all of whose interpolated
identifiers (the user id included) are clean — no forbidden keyword as a
whole word, none of the substrings `;`, `--`, `/*` — the statements built
by all five template branches of `generateSQL` pass `validateReadOnlySQL`,
so the validation-error return in those branches cannot fire (the fixed
column name `update_at` never triggers the word-boundary UPDATE check). -/
theorem C9_templates_validate (userID : List Char) (cat : Option propCatalog)
    (huid : cleanFragment (toUpperL userID) = true)
    (hcat : catalogCleanOpt cat = true) :
    validateReadOnlySQL (templateMyTasksSQL userID cat) = none
    ∧ validateReadOnlySQL (templateOpenSQL userID cat) = none
    ∧ validateReadOnlySQL (templateDoneSQL userID cat) = none
    ∧ validateReadOnlySQL (templateProgressSQL userID cat) = none
    ∧ validateReadOnlySQL (templateOverdueSQL userID cat) = none := by
  have hA := buildAssigneeClause_cleanClause userID cat huid hcat
  have hO := buildStatusOpenClause_cleanClause cat hcat
  have hD := buildStatusDoneClause_cleanClause cat hcat
  have hP := buildStatusProgressClause_cleanClause cat hcat
  have hV := buildOverdueClause_cleanClause cat hcat
  refine ⟨?_, ?_, ?_, ?_, ?_⟩
  · simp only [templateMyTasksSQL]
    exact template_validate _ hA
  · simp only [templateOpenSQL]
    rw [List.append_assoc sqlSelectHead]
    exact template_validate _ (cleanClause_append _ _ hA hO)
  · simp only [templateDoneSQL]
    rw [List.append_assoc sqlSelectHead]
    exact template_validate _ (cleanClause_append _ _ hA hD)
  · simp only [templateProgressSQL]
    rw [List.append_assoc sqlSelectHead]
    exact template_validate _ (cleanClause_append _ _ hA hP)
  · simp only [templateOverdueSQL]
    rw [List.append_assoc sqlSelectHead]
    exact template_validate _ (cleanClause_append _ _ hA hV)

set_option maxRecDepth 20000 in
/-- Witness for C9's amended theorem: the clean scenario input. -/
theorem C9_templates_validate_witness :
    validateReadOnlySQL (templateMyTasksSQL "u1".data (some assigneeCat)) = none :=
  (C9_templates_validate "u1".data (some assigneeCat) (by decide) (by decide)).1

/-! ## C8: serialization round-trip -/

theorem hexVal_hexDigit (d : Nat) (hd : d < 16) : hexVal (hexDigit d) = d := by
  interval_cases d <;> decide

theorem parseJString_escString (s : List Char) :
    ∀ rest, parseJString (escString s ++ '"' :: rest) = some (s, rest) := by
  induction s with
  | nil =>
    intro rest
    simp only [escString, List.nil_append]
    rw [parseJString.eq_def]
    simp
  | cons c cs ih =>
    intro rest
    have he : escString (c :: cs) = escGo c ++ escString cs := rfl
    rw [he]
    simp only [escGo]
    split
    · rename_i h
      subst h
      rw [parseJString.eq_def]
      simp [ih rest]
    · split
      · rename_i h
        subst h
        rw [parseJString.eq_def]
        simp [ih rest]
      · split
        · rename_i h
          subst h
          rw [parseJString.eq_def]
          simp [ih rest]
        · split
          · rename_i h
            subst h
            rw [parseJString.eq_def]
            simp [ih rest]
          · split
            · rename_i h
              subst h
              rw [parseJString.eq_def]
              simp [ih rest]
            · split
              · rename_i h1 h2 h3 h4 h5 h6
                simp only [Bool.or_eq_true, decide_eq_true_eq] at h6
                have hb : c.toNat < 256 := by
                  rcases h6 with ((h | h) | h) | h
                  · omega
                  · subst h
                    decide
                  · subst h
                    decide
                  · subst h
                    decide
                have hb1 : c.toNat / 16 < 16 := by omega
                have hb2 : c.toNat % 16 < 16 := by omega
                rw [parseJString.eq_def]
                simp only [List.cons_append, List.nil_append]
                simp [ih rest, hexVal_hexDigit _ hb1, hexVal_hexDigit _ hb2,
                  show hexVal '0' = 0 from rfl]
                rw [show (c.toNat / 16) * 16 + c.toNat % 16 = c.toNat by omega,
                  Char.ofNat_toNat]
              · split
                · rename_i h1 h2 h3 h4 h5 h6 h7
                  simp only [Bool.or_eq_true, decide_eq_true_eq] at h7
                  rcases h7 with ht | ht
                  · have hc : c = Char.ofNat 8232 := by
                      rw [← Char.ofNat_toNat c, ht]
                    rw [hc]
                    rw [parseJString.eq_def]
                    simp [ih rest]
                    decide
                  · have hc : c = Char.ofNat 8233 := by
                      rw [← Char.ofNat_toNat c, ht]
                    rw [hc]
                    rw [parseJString.eq_def]
                    simp [ih rest]
                    decide
                · rename_i h1 h2 h3 h4 h5 h6 h7
                  rw [parseJString.eq_def]
                  simp [h1, h2, ih rest]

theorem charDigit_toNat (r : Nat) (hr : r < 10) :
    (Char.ofNat (48 + r)).toNat - 48 = r := by
  interval_cases r <;> decide

theorem charDigit_isDigit (r : Nat) (hr : r < 10) :
    isDigitChar (Char.ofNat (48 + r)) = true := by
  interval_cases r <;> decide

theorem natToDigitsAux_acc : ∀ fuel n acc,
    natToDigitsAux fuel n acc = natToDigitsAux fuel n [] ++ acc := by
  intro fuel
  induction fuel with
  | zero =>
    intro n acc
    rfl
  | succ f ih =>
    intro n acc
    by_cases h : n < 10
    · simp only [natToDigitsAux, if_pos h]
      rfl
    · simp only [natToDigitsAux, if_neg h]
      rw [ih (n / 10) (Char.ofNat (48 + n % 10) :: acc),
        ih (n / 10) [Char.ofNat (48 + n % 10)]]
      simp

theorem natToDigitsAux_spec : ∀ fuel n, n < fuel →
    (∀ c ∈ natToDigitsAux fuel n [], isDigitChar c = true)
    ∧ digitsVal (natToDigitsAux fuel n []) = n
    ∧ natToDigitsAux fuel n [] ≠ [] := by
  intro fuel
  induction fuel with
  | zero =>
    intro n h
    exact absurd h (by omega)
  | succ f ih =>
    intro n hn
    by_cases h : n < 10
    · have he : natToDigitsAux (f + 1) n [] = [Char.ofNat (48 + n)] := by
        simp only [natToDigitsAux, if_pos h]
      rw [he]
      refine ⟨?_, ?_, by simp⟩
      · intro c hc
        rw [List.mem_singleton] at hc
        subst hc
        exact charDigit_isDigit n h
      · have := charDigit_toNat n h
        simp only [digitsVal, List.foldl]
        omega
    · have he : natToDigitsAux (f + 1) n []
          = natToDigitsAux f (n / 10) [] ++ [Char.ofNat (48 + n % 10)] := by
        simp only [natToDigitsAux, if_neg h]
        exact natToDigitsAux_acc f (n / 10) [Char.ofNat (48 + n % 10)]
      have hdiv : n / 10 < f := by omega
      obtain ⟨ihd, ihv, ihne⟩ := ih (n / 10) hdiv
      rw [he]
      have hm : n % 10 < 10 := by omega
      refine ⟨?_, ?_, by simp⟩
      · intro c hc
        rw [List.mem_append, List.mem_singleton] at hc
        rcases hc with hc | hc
        · exact ihd c hc
        · subst hc
          exact charDigit_isDigit _ hm
      · simp only [digitsVal, List.foldl_append, List.foldl] at ihv ⊢
        rw [ihv]
        have := charDigit_toNat (n % 10) hm
        omega

theorem natToDigits_spec (n : Nat) :
    (∀ c ∈ natToDigits n, isDigitChar c = true)
    ∧ digitsVal (natToDigits n) = n ∧ natToDigits n ≠ [] :=
  natToDigitsAux_spec (n + 1) n (by omega)

theorem spanDigits_append (ds : List Char)
    (hds : ∀ c ∈ ds, isDigitChar c = true) :
    ∀ rest, (∀ d, rest.head? = some d → isDigitChar d = false) →
    spanDigits (ds ++ rest) = (ds, rest) := by
  induction ds with
  | nil =>
    intro rest hrest
    cases rest with
    | nil => rfl
    | cons r rs =>
      simp only [List.nil_append, spanDigits]
      rw [if_neg]
      simp [hrest r rfl]
  | cons d ds' ih =>
    intro rest hrest
    simp only [List.cons_append, List.append_eq, spanDigits]
    rw [if_pos (hds d (by simp)),
      ih (fun c hc => hds c (by simp [hc])) rest hrest]

theorem parseJInt_marshalInt (n : Int) (rest : List Char)
    (hrest : ∀ d, rest.head? = some d → isDigitChar d = false) :
    parseJInt (marshalInt n ++ rest) = some (n, rest) := by
  obtain ⟨hdig, hval, hne⟩ := natToDigits_spec n.natAbs
  have hspan := spanDigits_append (natToDigits n.natAbs) hdig rest hrest
  by_cases hn : n < 0
  · rw [marshalInt, if_pos hn]
    rw [parseJInt, if_pos (by rw [hasPrefixL_iff]; exact ⟨_, rfl⟩)]
    simp only [List.cons_append, List.drop_succ_cons, List.drop_zero, hspan]
    rw [if_neg hne, Option.some.injEq, Prod.mk.injEq, hval]
    exact ⟨by omega, rfl⟩
  · rw [marshalInt, if_neg hn]
    have hta : n.toNat = n.natAbs := by omega
    rw [hta]
    have hpre : hasPrefixL (natToDigits n.natAbs ++ rest) "-".data = false := by
      cases hD : natToDigits n.natAbs with
      | nil => exact absurd hD hne
      | cons d ds =>
        have hd : isDigitChar d = true := hdig d (by rw [hD]; simp)
        have hdm : (d == '-') = false := by
          simp only [beq_eq_false_iff_ne, ne_eq]
          intro he
          rw [he] at hd
          exact absurd hd (by decide)
        simp [hasPrefixL, hdm]
    rw [parseJInt, if_neg (by rw [hpre]; exact Bool.false_ne_true)]
    simp only [hspan]
    rw [if_neg hne, Option.some.injEq, Prod.mk.injEq, hval]
    exact ⟨by omega, rfl⟩

theorem marshalInt_head_not (n : Int) (c : Char) (hc : isDigitChar c = false)
    (hcm : ¬(c = '-')) (rest : List Char) :
    hasPrefixL (marshalInt n ++ rest) [c] = false := by
  obtain ⟨hdig, _, hne⟩ := natToDigits_spec n.natAbs
  by_cases hn : n < 0
  · rw [marshalInt, if_pos hn]
    simp only [List.cons_append, hasPrefixL, Bool.and_true]
    simp only [beq_eq_false_iff_ne, ne_eq]
    intro he
    exact hcm he.symm
  · rw [marshalInt, if_neg hn]
    have hta : n.toNat = n.natAbs := by omega
    rw [hta]
    cases hD : natToDigits n.natAbs with
    | nil => exact absurd hD hne
    | cons d ds =>
      have hd : isDigitChar d = true := hdig d (by rw [hD]; simp)
      simp only [List.cons_append, hasPrefixL, Bool.and_true]
      simp only [beq_eq_false_iff_ne, ne_eq]
      intro he
      rw [he, hc] at hd
      exact Bool.false_ne_true hd

theorem parseJValue_marshalValue (v : JValue) (rest : List Char)
    (hrest : ∀ d, rest.head? = some d → isDigitChar d = false) :
    parseJValue (marshalValue v ++ rest) = some (v, rest) := by
  cases v with
  | jnull =>
    show parseJValue ("null".data ++ rest) = some (.jnull, rest)
    rw [parseJValue, if_neg (by simp [hasPrefixL]), if_pos (by
      rw [hasPrefixL_iff]; exact ⟨rest, rfl⟩)]
    have h4 : ("null".data).length = 4 := rfl
    rw [← h4, List.drop_left]
  | jstr s =>
    have he : marshalValue (.jstr s) ++ rest
        = '"' :: (escString s ++ '"' :: rest) := by
      simp [marshalValue, marshalString]
    rw [he, parseJValue, if_pos (by simp [hasPrefixL])]
    simp [parseJString_escString s rest]
  | jint n =>
    have hint := parseJInt_marshalInt n rest hrest
    simp only [marshalValue]
    rw [parseJValue,
      if_neg (by rw [marshalInt_head_not n '"' (by decide) (by decide) rest]
                 exact Bool.false_ne_true),
      if_neg ?hnull, hint]
    · rfl
    case hnull =>
      have h1 : hasPrefixL (marshalInt n ++ rest) ['n'] = false :=
        marshalInt_head_not n 'n' (by decide) (by decide) rest
      intro hcon
      cases hm : marshalInt n ++ rest with
      | nil => rw [hm] at hcon; exact absurd hcon (by decide)
      | cons d ds =>
        rw [hm] at hcon h1
        cases ds with
        | nil =>
          revert hcon
          simp [hasPrefixL]
        | cons d2 ds2 =>
          simp only [hasPrefixL, Bool.and_true, Bool.and_eq_true, beq_iff_eq] at hcon h1
          rw [hcon.1] at h1
          simp at h1

theorem parseJMembers_marshal : ∀ ms : RowRecord, ms ≠ [] →
    ∀ rest fuel, ms.length ≤ fuel →
    parseJMembers fuel (joinL ",".data (ms.map marshalMember) ++ '}' :: rest)
      = some (ms, rest) := by
  intro ms
  induction ms with
  | nil =>
    intro h
    exact absurd rfl h
  | cons m ms' ih =>
    intro _ rest fuel hfuel
    obtain ⟨k, v⟩ := m
    cases fuel with
    | zero => simp at hfuel
    | succ f =>
      cases ms' with
      | nil =>
        have hshape : joinL ",".data ([((k, v) : List Char × JValue)].map marshalMember)
            ++ '}' :: rest
            = '"' :: (escString k ++ '"' :: (':' :: (marshalValue v ++ '}' :: rest))) := by
          simp [joinL, marshalMember, marshalString]
        rw [hshape]
        simp [parseJMembers, parseJString_escString,
          parseJValue_marshalValue v ('}' :: rest) (by
            intro d hd
            rw [List.head?_cons, Option.some.injEq] at hd
            subst hd
            decide)]
      | cons m2 ms2 =>
        have hT := ih (by simp) rest f (by simp at hfuel ⊢; omega)
        have hshape : joinL ",".data ((((k, v) : List Char × JValue) :: m2 :: ms2).map marshalMember)
            ++ '}' :: rest
            = '"' :: (escString k ++ '"' :: (':' :: (marshalValue v
              ++ ',' :: (joinL ",".data ((m2 :: ms2).map marshalMember) ++ '}' :: rest)))) := by
          simp [joinL, marshalMember, marshalString]
        rw [hshape]
        generalize hX : joinL ",".data (List.map marshalMember (m2 :: ms2)) = X at hT ⊢
        simp [parseJMembers, parseJString_escString,
          parseJValue_marshalValue v (',' :: (X ++ '}' :: rest)) (by
            intro d hd
            rw [List.head?_cons, Option.some.injEq] at hd
            subst hd
            decide), hT]

theorem parseJRecord_marshal (r : RowRecord) (rest : List Char) (fuel : Nat)
    (hfuel : r.length ≤ fuel) :
    parseJRecord fuel (marshalRecord r ++ rest) = some (r, rest) := by
  cases r with
  | nil => rfl
  | cons m ms =>
    have hmem := parseJMembers_marshal (m :: ms) (by simp) rest fuel hfuel
    obtain ⟨Y, hY⟩ : ∃ Y, joinL ",".data ((m :: ms).map marshalMember) = '"' :: Y := by
      cases ms with
      | nil =>
        exact ⟨escString m.1 ++ '"' :: (':' :: marshalValue m.2),
          by simp [joinL, marshalMember, marshalString]⟩
      | cons m2 ms2 =>
        exact ⟨escString m.1 ++ '"' :: (':' :: (marshalValue m.2
            ++ ',' :: joinL ",".data ((m2 :: ms2).map marshalMember))),
          by simp [joinL, marshalMember, marshalString]⟩
    have hrec : marshalRecord (m :: ms) ++ rest = '{' :: '"' :: (Y ++ '}' :: rest) := by
      show ('{' :: joinL ",".data ((m :: ms).map marshalMember) ++ ['}']) ++ rest
        = '{' :: '"' :: (Y ++ '}' :: rest)
      rw [hY]
      simp
    rw [hrec]
    rw [hY] at hmem
    simp only [List.cons_append] at hmem
    simpa [parseJRecord] using hmem

theorem parseJElems_marshal : ∀ rs : List RowRecord, rs ≠ [] →
    ∀ rest fuel, (rs.map (fun r => r.length + 1)).sum ≤ fuel →
    parseJElems fuel (joinL ",".data (rs.map marshalRecord) ++ ']' :: rest)
      = some (rs, rest) := by
  intro rs
  induction rs with
  | nil =>
    intro h
    exact absurd rfl h
  | cons r rs' ih =>
    intro _ rest fuel hfuel
    have hfl : r.length + 1 ≤ fuel := by
      simp at hfuel
      omega
    cases fuel with
    | zero => omega
    | succ f =>
      have hrf : r.length ≤ f := by omega
      cases rs' with
      | nil =>
        have hshape : joinL ",".data ([r].map marshalRecord) ++ ']' :: rest
            = marshalRecord r ++ ']' :: rest := by
          simp [joinL]
        rw [hshape]
        show (match parseJRecord f (marshalRecord r ++ ']' :: rest) with
          | none => none
          | some (r, s2) =>
            match s2 with
            | ',' :: s3 => (parseJElems f s3).map (fun p => (r :: p.1, p.2))
            | ']' :: s3 => some ([r], s3)
            | _ => none) = some ([r], rest)
        rw [parseJRecord_marshal r (']' :: rest) f hrf]
        rfl
      | cons r2 rs2 =>
        have hshape : joinL ",".data ((r :: r2 :: rs2).map marshalRecord) ++ ']' :: rest
            = marshalRecord r
              ++ ',' :: (joinL ",".data ((r2 :: rs2).map marshalRecord) ++ ']' :: rest) := by
          simp [joinL]
        rw [hshape]
        show (match parseJRecord f (marshalRecord r
            ++ ',' :: (joinL ",".data ((r2 :: rs2).map marshalRecord) ++ ']' :: rest)) with
          | none => none
          | some (r, s2) =>
            match s2 with
            | ',' :: s3 => (parseJElems f s3).map (fun p => (r :: p.1, p.2))
            | ']' :: s3 => some ([r], s3)
            | _ => none) = some (r :: r2 :: rs2, rest)
        rw [parseJRecord_marshal r _ f hrf]
        show (parseJElems f (joinL ",".data ((r2 :: rs2).map marshalRecord)
          ++ ']' :: rest)).map (fun p => (r :: p.1, p.2)) = some (r :: r2 :: rs2, rest)
        rw [ih (by simp) rest f (by simp at hfuel ⊢; omega)]
        rfl

theorem sum_ge_length_of_one_le : ∀ l : List Nat, (∀ x ∈ l, 1 ≤ x) → l.length ≤ l.sum := by
  intro l
  induction l with
  | nil => simp
  | cons x xs ih =>
    intro h
    simp only [List.length_cons, List.sum_cons]
    have hx := h x (by simp)
    have hxs := ih (fun y hy => h y (by simp [hy]))
    omega

theorem joinL_length_ge_sum (sep : List Char) :
    ∀ ps : List (List Char), (ps.map List.length).sum ≤ (joinL sep ps).length := by
  intro ps
  induction ps with
  | nil => simp [joinL]
  | cons x ys ih =>
    cases ys with
    | nil => simp [joinL]
    | cons y rest =>
      simp only [joinL, List.map_cons, List.sum_cons, List.append_assoc, List.length_append]
      have := ih
      simp only [List.map_cons, List.sum_cons] at this
      omega

theorem marshalMember_length_pos (m : List Char × JValue) : 1 ≤ (marshalMember m).length := by
  simp [marshalMember, marshalString]

theorem marshalRecord_length_ge (r : RowRecord) :
    r.length + 2 ≤ (marshalRecord r).length := by
  have h1 : ((r.map marshalMember).map List.length).length
      ≤ ((r.map marshalMember).map List.length).sum := by
    refine sum_ge_length_of_one_le _ ?_
    intro x hx
    simp only [List.mem_map] at hx
    obtain ⟨y, hy, rfl⟩ := hx
    obtain ⟨m, _, rfl⟩ := hy
    exact marshalMember_length_pos m
  have h2 := joinL_length_ge_sum ",".data (r.map marshalMember)
  simp only [List.length_map] at h1
  simp only [marshalRecord, List.length_cons, List.length_append, List.length_map] at *
  omega

theorem marshalRecords_sum_ge (rs : List RowRecord) :
    (rs.map (fun r => r.length + 1)).sum ≤ ((rs.map marshalRecord).map List.length).sum := by
  induction rs with
  | nil => simp
  | cons r rs ih =>
    simp only [List.map_cons, List.sum_cons]
    have := marshalRecord_length_ge r
    omega

theorem marshalResultSet_fuel (rs : List RowRecord) :
    (rs.map (fun r => r.length + 1)).sum
      ≤ (joinL ",".data (rs.map marshalRecord)).length + 1 := by
  have h2 := joinL_length_ge_sum ",".data (rs.map marshalRecord)
  have h1 := marshalRecords_sum_ge rs
  omega

/-- C8: the executor's serialization round-trips — for every result set
materialized as an ordered list of column-name-keyed records with typed
scalar values (string, integer or null, as `executeQuery` materializes
rows), serializing it with the `json.Marshal` model and re-parsing the
text reproduces the same ordered list of records, every key and every
value (with its scalar type) intact. -/
theorem C8_resultset_roundtrip (rs : List RowRecord) :
    parseResultSet (marshalResultSet rs) = some rs := by
  cases rs with
  | nil => rfl
  | cons r rs' =>
    have hfuel := marshalResultSet_fuel (r :: rs')
    have hE := parseJElems_marshal (r :: rs') (by simp) []
        ((joinL ",".data ((r :: rs').map marshalRecord)).length + 1) hfuel
    obtain ⟨Z, hZ⟩ : ∃ Z, joinL ",".data ((r :: rs').map marshalRecord) = '{' :: Z := by
      cases rs' with
      | nil =>
        exact ⟨joinL ",".data (r.map marshalMember) ++ ['}'],
          by simp [joinL, marshalRecord]⟩
      | cons r2 rs2 =>
        exact ⟨(joinL ",".data (r.map marshalMember) ++ ['}'])
            ++ ",".data ++ joinL ",".data ((r2 :: rs2).map marshalRecord),
          by simp [joinL, marshalRecord]⟩
    rw [show marshalResultSet (r :: rs') = '[' :: '{' :: (Z ++ [']']) from by
      show '[' :: (joinL ",".data ((r :: rs').map marshalRecord) ++ [']'])
        = '[' :: '{' :: (Z ++ [']'])
      rw [hZ]
      rfl]
    show (match parseJElems ('{' :: (Z ++ [']'])).length ('{' :: (Z ++ [']'])) with
      | some (rs, rest) => if rest = [] then some rs else none
      | none => none) = some (r :: rs')
    have harg : '{' :: (Z ++ [']'])
        = joinL ",".data ((r :: rs').map marshalRecord) ++ ']' :: [] := by
      rw [hZ]
      rfl
    rw [harg]
    have hlen : (joinL ",".data ((r :: rs').map marshalRecord) ++ ']' :: []).length
        = (joinL ",".data ((r :: rs').map marshalRecord)).length + 1 := by
      simp
    rw [hlen, hE]
    rfl

end Focalboard
